import Mathlib

/-!
Shallow embedding of the Monkey lexer, AST and Pratt parser
(Go sources: `token/token.go`, `lexer/lexer.go`, `ast/ast.go`, `parser/parser.go`).

Source text is modelled as a `List Char`; the Go lexer reads bytes, so the
model is faithful for ASCII input (every input appearing in the claims is
ASCII).  Token literals, diagnostics and renderings are likewise `List Char`.
-/

namespace Monkey

/-- Token kinds: the Go `token` package's closed set of `TokenType` string
constants, one constructor per constant. -/
inductive TokType where
  | ILLEGAL | EOF
  | NAME | INT
  | ASSIGN | PLUS | MINUS | BANG | STAR | SLASH | GT | LT | EQ | NEQ
  | COMMA | SEMICOLON | LPAREN | RPAREN | LBRACE | RBRACE
  | FUNCTION | LET | TRUE | FALSE | IF | ELSE | RETURN
deriving DecidableEq, Repr

/-- Go `token.Token`: a kind plus the literal text. -/
structure Tok where
  type : TokType
  literal : List Char
deriving DecidableEq, Repr

/-- Go `token.LookupIdent`: exact-match, case-sensitive keyword table,
defaulting to `NAME`. -/
def lookupIdent (lit : List Char) : TokType :=
  if lit = "fn".toList then .FUNCTION
  else if lit = "let".toList then .LET
  else if lit = "true".toList then .TRUE
  else if lit = "false".toList then .FALSE
  else if lit = "if".toList then .IF
  else if lit = "else".toList then .ELSE
  else if lit = "return".toList then .RETURN
  else .NAME

/-- The character the Go lexer sees at position `i`: `input[i]`, or NUL when
the position is at or past the end (`readChar` sets `l.ch = 0` there). -/
def charAt (s : List Char) (i : Nat) : Char :=
  if h : i < s.length then s.get ⟨i, h⟩ else Char.ofNat 0

/-- Go `isLetter`. -/
def isLetter (c : Char) : Bool :=
  ('a' ≤ c && c ≤ 'z') || ('A' ≤ c && c ≤ 'Z') || c = '_'

/-- Go `isDigit`. -/
def isDigit (c : Char) : Bool :=
  '0' ≤ c && c ≤ '9'

/-- The whitespace test of Go `skipWhitespace`. -/
def isWs (c : Char) : Bool :=
  c = ' ' || c = '\t' || c = '\n' || c = '\r'

theorem charAt_of_len_le {s : List Char} {i : Nat} (h : s.length ≤ i) :
    charAt s i = Char.ofNat 0 := by
  unfold charAt
  rw [dif_neg (by omega)]

theorem lt_of_charAt_ws {s : List Char} {i : Nat} (h : isWs (charAt s i) = true) :
    i < s.length := by
  by_contra hc
  rw [charAt_of_len_le (by omega)] at h
  exact absurd h (by decide)

theorem lt_of_charAt_letter {s : List Char} {i : Nat} (h : isLetter (charAt s i) = true) :
    i < s.length := by
  by_contra hc
  rw [charAt_of_len_le (by omega)] at h
  exact absurd h (by decide)

theorem lt_of_charAt_digit {s : List Char} {i : Nat} (h : isDigit (charAt s i) = true) :
    i < s.length := by
  by_contra hc
  rw [charAt_of_len_le (by omega)] at h
  exact absurd h (by decide)

/-- Go `readWhile`: the end position of the maximal run of characters
satisfying `p` starting at `pos`.  Defined with a structural fuel (so the
kernel can evaluate it); any fuel covering the rest of the buffer gives the
fixed point, and `s.length` always does, see `readWhileEnd_eq`. -/
def readWhileEnd (p : Char → Bool) : Nat → List Char → Nat → Nat
  | 0, _, pos => pos
  | b + 1, s, pos =>
      if p (charAt s pos) then readWhileEnd p b s (pos + 1) else pos

/-- Go `skipWhitespace`: the position after the run of whitespace starting
at `pos`. -/
def skipWs (s : List Char) (pos : Nat) : Nat :=
  readWhileEnd isWs s.length s pos

/-- Go `readIdentifier` (via `readWhile isLetter`): the end position of the
maximal letter run starting at `pos`. -/
def identEnd (s : List Char) (pos : Nat) : Nat :=
  readWhileEnd isLetter s.length s pos

/-- Go `readNumber` (via `readWhile isDigit`): the end position of the
maximal digit run starting at `pos`. -/
def numberEnd (s : List Char) (pos : Nat) : Nat :=
  readWhileEnd isDigit s.length s pos

/-- Go slice `s[a:b]`. -/
def slice (s : List Char) (a b : Nat) : List Char :=
  (s.take b).drop a

theorem readWhileEnd_ge (p : Char → Bool) (b : Nat) (s : List Char) (pos : Nat) :
    pos ≤ readWhileEnd p b s pos := by
  induction b generalizing pos with
  | zero => exact Nat.le_refl pos
  | succ b ih =>
      rw [readWhileEnd]
      split
      · have := ih (pos + 1)
        omega
      · exact Nat.le_refl pos

/-- Predicates failing on NUL fail past the end of the buffer. -/
theorem not_p_of_len_le {p : Char → Bool} (hp : p (Char.ofNat 0) = false)
    {s : List Char} {pos : Nat} (h : s.length ≤ pos) : p (charAt s pos) = false := by
  rw [charAt_of_len_le h]
  exact hp

theorem readWhileEnd_succ {p : Char → Bool} (hp : p (Char.ofNat 0) = false)
    (s : List Char) : ∀ (b pos : Nat), s.length ≤ pos + b →
    readWhileEnd p (b + 1) s pos = readWhileEnd p b s pos := by
  intro b
  induction b with
  | zero =>
      intro pos h
      rw [readWhileEnd, readWhileEnd, not_p_of_len_le hp (by omega), if_neg (by simp)]
  | succ b ih =>
      intro pos h
      rw [readWhileEnd]
      conv_rhs => rw [readWhileEnd]
      split
      · exact ih (pos + 1) (by omega)
      · rfl

/-- Fuel irrelevance past the end of the buffer. -/
theorem readWhileEnd_congr {p : Char → Bool} (hp : p (Char.ofNat 0) = false)
    (s : List Char) : ∀ (b b' pos : Nat), s.length ≤ pos + b → b ≤ b' →
    readWhileEnd p b s pos = readWhileEnd p b' s pos := by
  intro b b' pos h hle
  induction b' with
  | zero =>
      have : b = 0 := by omega
      rw [this]
  | succ b' ih =>
      rcases Nat.lt_or_ge b (b' + 1) with hlt | hge
      · rw [readWhileEnd_succ hp s b' pos (by omega)]
        exact ih (by omega)
      · have : b = b' + 1 := by omega
        rw [this]

/-- The defining recursion of `readWhile` at the canonical fuel. -/
theorem readWhileEnd_eq {p : Char → Bool} (hp : p (Char.ofNat 0) = false)
    (s : List Char) (pos : Nat) :
    readWhileEnd p s.length s pos =
      if p (charAt s pos) then readWhileEnd p s.length s (pos + 1) else pos := by
  cases hl : s.length with
  | zero =>
      rw [readWhileEnd, not_p_of_len_le hp (by omega), if_neg (by simp)]
  | succ b =>
      rw [readWhileEnd]
      split
      · have hlt : pos < s.length := by
          by_contra hc
          have := not_p_of_len_le hp (le_of_not_lt hc)
          simp_all
      -- with pos < s.length, fuel b covers the rest from pos + 1
        rw [readWhileEnd_congr hp s b (b + 1) (pos + 1) (by omega) (by omega)]
      · rfl

theorem skipWs_eq (s : List Char) (pos : Nat) :
    skipWs s pos = if isWs (charAt s pos) then skipWs s (pos + 1) else pos :=
  readWhileEnd_eq (by decide) s pos

theorem identEnd_eq (s : List Char) (pos : Nat) :
    identEnd s pos = if isLetter (charAt s pos) then identEnd s (pos + 1) else pos :=
  readWhileEnd_eq (by decide) s pos

theorem numberEnd_eq (s : List Char) (pos : Nat) :
    numberEnd s pos = if isDigit (charAt s pos) then numberEnd s (pos + 1) else pos :=
  readWhileEnd_eq (by decide) s pos

theorem skipWs_ge (s : List Char) (pos : Nat) : pos ≤ skipWs s pos :=
  readWhileEnd_ge isWs s.length s pos

theorem identEnd_ge (s : List Char) (pos : Nat) : pos ≤ identEnd s pos :=
  readWhileEnd_ge isLetter s.length s pos

theorem numberEnd_ge (s : List Char) (pos : Nat) : pos ≤ numberEnd s pos :=
  readWhileEnd_ge isDigit s.length s pos

theorem readWhileEnd_stops {p : Char → Bool} (hp : p (Char.ofNat 0) = false)
    (s : List Char) : ∀ (b pos : Nat), s.length ≤ pos + b →
    p (charAt s (readWhileEnd p b s pos)) = false := by
  intro b
  induction b with
  | zero =>
      intro pos h
      rw [readWhileEnd]
      exact not_p_of_len_le hp (by omega)
  | succ b ih =>
      intro pos h
      rw [readWhileEnd]
      split
      · exact ih (pos + 1) (by omega)
      · simp_all

theorem skipWs_not_ws (s : List Char) (pos : Nat) :
    isWs (charAt s (skipWs s pos)) = false :=
  readWhileEnd_stops (by decide) s s.length pos (by omega)

theorem skipWs_of_len_le {s : List Char} {pos : Nat} (h : s.length ≤ pos) :
    skipWs s pos = pos := by
  rw [skipWs_eq, charAt_of_len_le h]
  simp [isWs, Char.ofNat]

/-!
Modelled from the spec: the lexer snapshot that pairs with the final
parser — handling `-`, `!`, `*`, `/`, `<`, `>`, the two-character operators
`==`/`!=` by one character of lookahead, and the full keyword set — is not
under `src/` (only its test `TestNextToken` and its caller, the parser, are).
Everything else (whitespace skipping, single-character tokens, identifier and
number runs, NUL-as-EOF, ILLEGAL fallback, and the position bookkeeping of
`readChar`) follows `src/lexer/lexer.go` directly.  The lexer state
`(input, currPosition, nextPosition, ch)` collapses to `(s, pos)` with
`ch = charAt s pos` and `nextPosition = pos + 1`, the invariant `readChar`
maintains.  `nextToken` returns the token and the new current position.
-/

/-- Modelled from the spec: the tail of the final lexer's character switch —
`{`, `}`, the NUL end-of-buffer case,
and the `default:` branch (letter run, digit run, or ILLEGAL).  The one Go
`switch` is transcribed as three sequential helpers (`nextTokenAt` →
`nextTokenMid` → `nextTokenTail`), cases in the same order. -/
def nextTokenTail (s : List Char) (i : Nat) : Tok × Nat :=
  if charAt s i = '{' then (⟨.LBRACE, ['{']⟩, i + 1)
  else if charAt s i = '}' then (⟨.RBRACE, ['}']⟩, i + 1)
  else if charAt s i = Char.ofNat 0 then (⟨.EOF, []⟩, i + 1)
  else if isLetter (charAt s i) then
    (⟨lookupIdent (slice s i (identEnd s i)), slice s i (identEnd s i)⟩, identEnd s i)
  else if isDigit (charAt s i) then
    (⟨.INT, slice s i (numberEnd s i)⟩, numberEnd s i)
  else (⟨.ILLEGAL, [charAt s i]⟩, i + 1)

/-- Middle of the character switch: the single-character arithmetic and
comparison operators. -/
def nextTokenMid (s : List Char) (i : Nat) : Tok × Nat :=
  if charAt s i = '+' then (⟨.PLUS, ['+']⟩, i + 1)
  else if charAt s i = '-' then (⟨.MINUS, ['-']⟩, i + 1)
  else if charAt s i = '*' then (⟨.STAR, ['*']⟩, i + 1)
  else if charAt s i = '/' then (⟨.SLASH, ['/']⟩, i + 1)
  else if charAt s i = '<' then (⟨.LT, ['<']⟩, i + 1)
  else if charAt s i = '>' then (⟨.GT, ['>']⟩, i + 1)
  else nextTokenTail s i

/-- Head of the character switch: `=`/`!` with one character of lookahead
for the two-character operators, then `;` `(` `)` `,`. -/
def nextTokenAt (s : List Char) (i : Nat) : Tok × Nat :=
  if charAt s i = '=' then
    if charAt s (i + 1) = '=' then (⟨.EQ, ['=', '=']⟩, i + 2)
    else (⟨.ASSIGN, ['=']⟩, i + 1)
  else if charAt s i = '!' then
    if charAt s (i + 1) = '=' then (⟨.NEQ, ['!', '=']⟩, i + 2)
    else (⟨.BANG, ['!']⟩, i + 1)
  else if charAt s i = ';' then (⟨.SEMICOLON, [';']⟩, i + 1)
  else if charAt s i = '(' then (⟨.LPAREN, ['(']⟩, i + 1)
  else if charAt s i = ')' then (⟨.RPAREN, [')']⟩, i + 1)
  else if charAt s i = ',' then (⟨.COMMA, [',']⟩, i + 1)
  else nextTokenMid s i

/-- Go `Lexer.NextToken` on the collapsed state: skip whitespace, then the
character switch.  Returns the token and the new current position. -/
def nextToken (s : List Char) (pos : Nat) : Tok × Nat :=
  nextTokenAt s (skipWs s pos)

theorem nextTokenTail_pos_lt (s : List Char) (i : Nat) :
    i < (nextTokenTail s i).2 := by
  have hident : isLetter (charAt s i) = true → i + 1 ≤ identEnd s i := by
    intro h
    rw [identEnd_eq, if_pos h]
    exact identEnd_ge s (i + 1)
  have hnum : isDigit (charAt s i) = true → i + 1 ≤ numberEnd s i := by
    intro h
    rw [numberEnd_eq, if_pos h]
    exact numberEnd_ge s (i + 1)
  unfold nextTokenTail
  repeat' split
  all_goals first
    | omega
    | (have h9 := hident (by assumption); omega)
    | (have h9 := hnum (by assumption); omega)

theorem nextTokenMid_pos_lt (s : List Char) (i : Nat) :
    i < (nextTokenMid s i).2 := by
  have h := nextTokenTail_pos_lt s i
  unfold nextTokenMid
  repeat' split
  all_goals omega

theorem nextTokenAt_pos_lt (s : List Char) (i : Nat) :
    i < (nextTokenAt s i).2 := by
  have h := nextTokenMid_pos_lt s i
  unfold nextTokenAt
  repeat' split
  all_goals omega

theorem nextToken_pos_lt (s : List Char) (pos : Nat) :
    pos < (nextToken s pos).2 := by
  have h1 := skipWs_ge s pos
  have h2 := nextTokenAt_pos_lt s (skipWs s pos)
  unfold nextToken
  omega

theorem nextTokenAt_of_len_le {s : List Char} {i : Nat} (h : s.length ≤ i) :
    nextTokenAt s i = (⟨.EOF, []⟩, i + 1) := by
  unfold nextTokenAt nextTokenMid nextTokenTail
  simp only [charAt_of_len_le h]
  repeat rw [if_neg (by decide)]
  rw [if_pos trivial]

theorem nextToken_of_len_le {s : List Char} {pos : Nat} (h : s.length ≤ pos) :
    nextToken s pos = (⟨.EOF, []⟩, pos + 1) := by
  unfold nextToken
  rw [skipWs_of_len_le h, nextTokenAt_of_len_le h]

/-- Fuelled token collection; the position strictly grows each step, so the
fuel `s.length` of `tokenize` below is never the stopping reason. -/
def tokenizeAux : Nat → List Char → Nat → List Tok
  | 0, _, _ => []
  | b + 1, s, pos =>
      if pos < s.length then
        (nextToken s pos).1 :: tokenizeAux b s (nextToken s pos).2
      else []

/-- The token stream the parser consumes: all tokens of the input text, up to
the end of the buffer.  Past the end the Go lexer returns EOF forever, which
the parser-state `advance` below reproduces by padding with `⟨EOF, ""⟩`. -/
def tokenize (s : List Char) (pos : Nat) : List Tok :=
  tokenizeAux s.length s pos

/-!
AST model (`src/ast/ast.go`, final snapshot).  Go interface values that may
be `nil` (an `ast.Expression` child produced by a failed sub-parse) are
`Option`s; `*Identifier` and `*BlockStatement` children that the parser
always populates on the non-`nil` path are plain fields.  `Arguments` and
`Parameters` slices may themselves be `nil` (when `parseCallArguments` /
`parseFunctionParameters` fail), hence the outer `Option`; `Arguments`
elements may be `nil` (a failed argument parse is appended as-is), hence the
inner `Option`.
-/

/-- Go `ast.Identifier`. -/
structure Identifier where
  token : Tok
  value : List Char
deriving DecidableEq, Repr

mutual

/-- The expression variants of `src/ast/ast.go`, one constructor per Go
struct. -/
inductive Expr where
  | Ident (id : Identifier)
  | IntegerLiteral (token : Tok) (value : Int)
  | BoolLiteral (token : Tok) (value : Bool)
  | PrefixExpression (token : Tok) (operator : List Char) (right : Option Expr)
  | InfixExpression (token : Tok) (left : Option Expr) (operator : List Char)
      (right : Option Expr)
  | IfExpression (token : Tok) (condition : Option Expr) (consequence : Block)
      (alternative : Option Block)
  | FunctionLiteral (token : Tok) (parameters : Option (List Identifier)) (body : Block)
  | CallExpression (token : Tok) (function : Option Expr)
      (arguments : Option (List (Option Expr)))
deriving Repr

/-- The statement variants of `src/ast/ast.go`. -/
inductive Stmt where
  | LetStatement (token : Tok) (name : Identifier) (value : Option Expr)
  | ReturnStatement (token : Tok) (returnValue : Option Expr)
  | ExpressionStatement (token : Tok) (expression : Option Expr)
deriving Repr

/-- Go `ast.BlockStatement`. -/
inductive Block where
  | BlockStatement (token : Tok) (statements : List Stmt)
deriving Repr

end

/-- Go `ast.Program`. -/
structure Program where
  statements : List Stmt
deriving Repr

/-!
Canonical rendering: the `String()` methods of `src/ast/ast.go`.  Calling
`String()` on a `nil` `ast.Expression` child panics in Go; rendering
therefore returns an `Option`, with `none` for a run that would panic.
The `nil`-checked children (`LetStatement.Value`, `ReturnStatement.ReturnValue`,
`ExpressionStatement.Expression`, `IfExpression.Alternative`) render their
absent case exactly as Go does; the unchecked dereferences
(`PrefixExpression.Right`, `InfixExpression.Left`/`Right`,
`IfExpression.Condition`, `CallExpression.Function`, call arguments) map an
absent child to `none`.
-/

mutual

/-- `String()` on a Go `ast.Expression` interface value that may be `nil`:
`nil` panics (`none`), otherwise dispatches to the node's method. -/
def optExprString : Option Expr → Option (List Char)
  | none => none
  | some e => exprString e

/-- The `String()` methods of the expression nodes. -/
def exprString : Expr → Option (List Char)
  | .Ident id => some id.value
  | .IntegerLiteral t _ => some t.literal
  | .BoolLiteral t _ => some t.literal
  | .PrefixExpression _ op r =>
      match optExprString r with
      | none => none
      | some rs => some ('(' :: (op ++ rs ++ [')']))
  | .InfixExpression _ l op r =>
      match optExprString l, optExprString r with
      | some ls, some rs => some ('(' :: (ls ++ [' '] ++ op ++ [' '] ++ rs ++ [')']))
      | _, _ => none
  | .IfExpression _ c cons alt =>
      match optExprString c, blockString cons with
      | some cs, some conss =>
          match alt with
          | none => some ("if".toList ++ cs ++ [' '] ++ conss)
          | some b =>
              match blockString b with
              | none => none
              | some bs => some ("if".toList ++ cs ++ [' '] ++ conss ++ "else ".toList ++ bs)
      | _, _ => none
  | .FunctionLiteral _ ps body =>
      match blockString body with
      | none => none
      | some bs =>
          some ("fn".toList ++ ['('] ++
            (List.intercalate ", ".toList ((ps.getD []).map Identifier.value)) ++ [')'] ++ bs)
  | .CallExpression _ f args =>
      match optExprString f, argsStrings args with
      | some fs, some argss =>
          some (fs ++ ['('] ++ List.intercalate ", ".toList argss ++ [')'])
      | _, _ => none

/-- The argument strings of `CallExpression.String`: ranging over a `nil`
`Arguments` slice yields no strings; a `nil` argument's `String()` call
panics. -/
def argsStrings : Option (List (Option Expr)) → Option (List (List Char))
  | none => some []
  | some l => argListStrings l

/-- The strings of a non-`nil` argument slice. -/
def argListStrings : List (Option Expr) → Option (List (List Char))
  | [] => some []
  | a :: rest =>
      match optExprString a, argListStrings rest with
      | some s, some ss => some (s :: ss)
      | _, _ => none

/-- The `String()` methods of the statement nodes. -/
def stmtString : Stmt → Option (List Char)
  | .LetStatement t name v =>
      match v with
      | none => some (t.literal ++ [' '] ++ name.value ++ " = ;".toList)
      | some e =>
          match exprString e with
          | none => none
          | some vs => some (t.literal ++ [' '] ++ name.value ++ " = ".toList ++ vs ++ [';'])
  | .ReturnStatement t v =>
      match v with
      | none => some (t.literal ++ " ;".toList)
      | some e =>
          match exprString e with
          | none => none
          | some vs => some (t.literal ++ [' '] ++ vs ++ [';'])
  | .ExpressionStatement _ e =>
      match e with
      | none => some []
      | some e' => exprString e'

/-- `BlockStatement.String`: the concatenation of the member statements'
renderings (no braces). -/
def blockString : Block → Option (List Char)
  | .BlockStatement _ ss => stmtListString ss

/-- Concatenation of statement renderings (used by `Program.String` and
`BlockStatement.String`). -/
def stmtListString : List Stmt → Option (List Char)
  | [] => some []
  | s :: ss =>
      match stmtString s, stmtListString ss with
      | some a, some b => some (a ++ b)
      | _, _ => none

end

/-- Go `Program.String`. -/
def programString (p : Program) : Option (List Char) :=
  stmtListString p.statements

/-!
Completeness: a node is complete when no required child is absent.  The
children Go renders through an unconditional dereference are required;
`IfExpression.Alternative` is optional by design; a `nil` `Parameters` or
`Arguments` slice is a degraded node, so completeness requires `isSome`.
-/

mutual

/-- A possibly-absent required expression child is complete when present and
recursively complete. -/
def optComplete : Option Expr → Bool
  | none => false
  | some e => exprComplete e

/-- No absent required child anywhere in the expression. -/
def exprComplete : Expr → Bool
  | .Ident _ => true
  | .IntegerLiteral _ _ => true
  | .BoolLiteral _ _ => true
  | .PrefixExpression _ _ r => optComplete r
  | .InfixExpression _ l _ r => optComplete l && optComplete r
  | .IfExpression _ c cons alt =>
      optComplete c && blockComplete cons &&
        (match alt with
         | none => true
         | some b => blockComplete b)
  | .FunctionLiteral _ ps body => ps.isSome && blockComplete body
  | .CallExpression _ f args =>
      optComplete f &&
        (match args with
         | none => false
         | some l => argsComplete l)

/-- Every call argument present and complete. -/
def argsComplete : List (Option Expr) → Bool
  | [] => true
  | a :: rest => optComplete a && argsComplete rest

/-- No absent required child anywhere in the statement. -/
def stmtComplete : Stmt → Bool
  | .LetStatement _ _ v => optComplete v
  | .ReturnStatement _ v => optComplete v
  | .ExpressionStatement _ e => optComplete e

/-- No absent required child anywhere in the block. -/
def blockComplete : Block → Bool
  | .BlockStatement _ ss => stmtsComplete ss

/-- No absent required child in any statement of the list. -/
def stmtsComplete : List Stmt → Bool
  | [] => true
  | s :: ss => stmtComplete s && stmtsComplete ss

end

/-!
Integer conversion.  `parseIntegerLiteral` calls `strconv.ParseInt(lit, 0, 64)`:
base 0, so a literal with a leading `0` and further digits is parsed as octal
(digits `8`/`9` are then a syntax error), and any value outside the signed
64-bit range is a range error.  The model covers exactly the token texts the
lexer can produce for `INT` (non-empty decimal-digit runs); for other lists it
returns `none`.
-/

/-- The largest signed 64-bit value (`math.MaxInt64`); the lexer produces no
minus sign inside a literal, so only the upper bound can be exceeded. -/
def int64Max : Nat := 2 ^ 63 - 1

/-- Decimal value of a digit run. -/
def decVal (l : List Char) : Nat :=
  l.foldl (fun a c => 10 * a + (c.toNat - '0'.toNat)) 0

/-- Octal value of a digit run. -/
def octVal (l : List Char) : Nat :=
  l.foldl (fun a c => 8 * a + (c.toNat - '0'.toNat)) 0

/-- Octal digit test. -/
def isOctDigit (c : Char) : Bool :=
  '0' ≤ c && c ≤ '7'

/-- Go `strconv.ParseInt(lit, 0, 64)` on a decimal-digit run: `some` the
parsed value, `none` for a syntax or range error. -/
def goParseInt (l : List Char) : Option Int :=
  if l = [] then none
  else if ¬ l.all isDigit then none
  else if l.head? = some '0' ∧ 2 ≤ l.length then
    if (l.tail).all isOctDigit ∧ octVal l.tail ≤ int64Max then
      some (octVal l.tail)
    else none
  else if decVal l ≤ int64Max then some (decVal l) else none

/-!
Parser (`src/unnamed/part_005`, the final snapshot).  The Go parser holds a
lexer plus `currToken`/`peekToken`; the model pre-lexes the input with
`tokenize` and keeps the not-yet-pulled tokens in `rest`, padding with the
EOF token once `rest` is exhausted — exactly what `l.NextToken()` returns
past the end of the buffer.  Diagnostics are structured values carrying the
same data Go formats with `fmt.Sprintf`.

The mutually recursive parse functions take a fuel argument, decremented at
every mutual call; an exhausted-fuel branch records the `outOfFuel`
diagnostic (so that no absent result is ever produced silently) and is
unreachable when the fuel exceeds the recursion depth, as in `parseProgram`
below.
-/

/-- One diagnostic, carrying the data of the corresponding Go message:
`peekError` ("expected next token to be '%s', got '%s' parsing: '%s ...'"),
`noPrefixParseFnError` ("no prefix parse function for %s found") and
`parseIntegerLiteral`'s "could not parse %q as integer". -/
inductive Diag where
  | expectedNext (want got : TokType) (progress : List (List Char))
  | noPrefixParseFn (t : TokType)
  | couldNotParseInt (lit : List Char)
  | outOfFuel
deriving DecidableEq, Repr

/-- The EOF token value; also what the zero `token.Token` of a fresh parser
carries as literal (its type is never inspected before two `advance`s). -/
def eofTok : Tok := ⟨.EOF, []⟩

/-- Parser state: pending tokens, `currToken`, `peekToken`, the `errors`
list, and the `progress` trace. -/
structure PState where
  rest : List Tok
  curr : Tok
  peek : Tok
  errors : List Diag
  progress : List (List Char)
deriving Repr

/-- Go `Parser.advance`: shift `peekToken` into `currToken`, pull the next
lexer token (EOF forever past the end), and append the new current literal
to the progress trace. -/
def advance (st : PState) : PState :=
  match st.rest with
  | [] =>
      { st with
        curr := st.peek
        peek := eofTok
        progress := st.progress ++ [st.peek.literal] }
  | t :: ts =>
      { st with
        rest := ts
        curr := st.peek
        peek := t
        progress := st.progress ++ [st.peek.literal] }

/-- Append one diagnostic. -/
def pushErr (st : PState) (d : Diag) : PState :=
  { st with errors := st.errors ++ [d] }

/-- Go `Parser.flushProgress`. -/
def flushProgress (st : PState) : PState :=
  { st with progress := [] }

/-- Go `Parser.currTokenIs`. -/
def currTokenIs (st : PState) (t : TokType) : Bool :=
  st.curr.type = t

/-- Go `Parser.nextTokenIs`. -/
def nextTokenIs (st : PState) (t : TokType) : Bool :=
  st.peek.type = t

/-- Go `Parser.peekError`. -/
def peekError (st : PState) (t : TokType) : PState :=
  pushErr st (.expectedNext t st.peek.type st.progress)

/-- Go `Parser.advanceIfNextTokenIs`. -/
def advanceIfNextTokenIs (st : PState) (t : TokType) : Bool × PState :=
  if nextTokenIs st t then (true, advance st) else (false, peekError st t)

/-- The precedence constants (`LOWEST` is 1, as in the Go `iota` block). -/
def LOWEST : Nat := 1
/-- `EQUALS` precedence level. -/
def EQUALS : Nat := 2
/-- `LTGT` precedence level. -/
def LTGT : Nat := 3
/-- `SUM` precedence level. -/
def SUM : Nat := 4
/-- `PRODUCT` precedence level. -/
def PRODUCT : Nat := 5
/-- `PREFIX` precedence level. -/
def PREFIX : Nat := 6
/-- `CALL` precedence level. -/
def CALL : Nat := 7

/-- The Go `precedences` map; `none` for a token type not in the map. -/
def precedences (t : TokType) : Option Nat :=
  match t with
  | .EQ => some EQUALS
  | .NEQ => some EQUALS
  | .LT => some LTGT
  | .GT => some LTGT
  | .PLUS => some SUM
  | .MINUS => some SUM
  | .STAR => some PRODUCT
  | .SLASH => some PRODUCT
  | .LPAREN => some CALL
  | _ => none

/-- Go `Parser.peekPrecedence` (map lookup defaulting to `LOWEST`). -/
def peekPrecedence (st : PState) : Nat :=
  (precedences st.peek.type).getD LOWEST

/-- Go `Parser.currPrecedence`. -/
def currPrecedence (st : PState) : Nat :=
  (precedences st.curr.type).getD LOWEST

/-- The token types with a registered prefix parse function (`registerPrefix`
calls in `parser.New`). -/
def hasNud (t : TokType) : Bool :=
  match t with
  | .NAME | .INT | .BANG | .MINUS | .TRUE | .FALSE | .LPAREN | .IF | .FUNCTION => true
  | _ => false

/-- Go `Parser.parseIdentifier` (no state change). -/
def parseIdentifier (st : PState) : Option Expr × PState :=
  (some (.Ident ⟨st.curr, st.curr.literal⟩), st)

/-- Go `Parser.parseBoolLiteral`. -/
def parseBoolLiteral (st : PState) : Option Expr × PState :=
  (some (.BoolLiteral st.curr (currTokenIs st .TRUE)), st)

/-- Go `Parser.parseIntegerLiteral`: a failed `strconv.ParseInt` records a
diagnostic and returns `nil`. -/
def parseIntegerLiteral (st : PState) : Option Expr × PState :=
  match goParseInt st.curr.literal with
  | some v => (some (.IntegerLiteral st.curr v), st)
  | none => (none, pushErr st (.couldNotParseInt st.curr.literal))

mutual

/-- Go `Parser.parseStatement`: dispatch on the current token type. -/
def parseStatement : Nat → PState → Option Stmt × PState
  | 0, st => (none, pushErr st .outOfFuel)
  | fuel + 1, st =>
      match st.curr.type with
      | .LET => parseLetStatement fuel st
      | .RETURN => parseReturnStatement fuel st
      | _ =>
          match parseExpressionStatement fuel st with
          | (s, st') => (some s, st')

/-- Go `Parser.parseLetStatement`. -/
def parseLetStatement : Nat → PState → Option Stmt × PState
  | 0, st => (none, pushErr st .outOfFuel)
  | fuel + 1, st =>
      match advanceIfNextTokenIs st .NAME with
      | (false, st1) => (none, st1)
      | (true, st1) =>
          match advanceIfNextTokenIs st1 .ASSIGN with
          | (false, st2) => (none, st2)
          | (true, st2) =>
              match parseExpression fuel LOWEST (advance st2) with
              | (v, st3) =>
                  (some (.LetStatement st.curr ⟨st1.curr, st1.curr.literal⟩ v),
                   eatSemis fuel st3)

/-- Go `Parser.parseReturnStatement`. -/
def parseReturnStatement : Nat → PState → Option Stmt × PState
  | 0, st => (none, pushErr st .outOfFuel)
  | fuel + 1, st =>
      match parseExpression fuel LOWEST (advance st) with
      | (v, st1) => (some (.ReturnStatement st.curr v), eatSemis fuel st1)

/-- Go `Parser.parseExpressionStatement`: always returns a statement; one
optional trailing semicolon is consumed. -/
def parseExpressionStatement : Nat → PState → Stmt × PState
  | 0, st => (.ExpressionStatement st.curr none, pushErr st .outOfFuel)
  | fuel + 1, st =>
      match parseExpression fuel LOWEST st with
      | (e, st1) =>
          (.ExpressionStatement st.curr e,
           if nextTokenIs st1 .SEMICOLON then advance st1 else st1)

/-- The `for p.nextTokenIs(token.SEMICOLON)` loops of `parseLetStatement`
and `parseReturnStatement`. -/
def eatSemis : Nat → PState → PState
  | 0, st => pushErr st .outOfFuel
  | fuel + 1, st =>
      if nextTokenIs st .SEMICOLON then eatSemis fuel (advance st) else st

/-- Go `Parser.parseExpression`: look up the prefix rule (diagnostic and
`nil` if none), run it, then the infix loop. -/
def parseExpression : Nat → Nat → PState → Option Expr × PState
  | 0, _, st => (none, pushErr st .outOfFuel)
  | fuel + 1, prec, st =>
      if hasNud st.curr.type then
        match parseNud fuel st with
        | (left, st1) => parseInfixLoop fuel prec left st1
      else (none, pushErr st (.noPrefixParseFn st.curr.type))

/-- The prefix-rule dispatch table (`p.prefixParseFns`); only invoked on
types satisfying `hasNud`. -/
def parseNud : Nat → PState → Option Expr × PState
  | 0, st => (none, pushErr st .outOfFuel)
  | fuel + 1, st =>
      match st.curr.type with
      | .NAME => parseIdentifier st
      | .INT => parseIntegerLiteral st
      | .BANG => parsePrefixExpression fuel st
      | .MINUS => parsePrefixExpression fuel st
      | .TRUE => parseBoolLiteral st
      | .FALSE => parseBoolLiteral st
      | .LPAREN => parseGroupedExpression fuel st
      | .IF => parseIfExpression fuel st
      | .FUNCTION => parseFunctionLiteral fuel st
      | _ => (none, st)

/-- The `for` loop of `parseExpression`: while the peek token is not `;` and
binds tighter than `prec`, look up the infix rule (stop if none), advance so
the operator is current, and apply it to the accumulated left expression. -/
def parseInfixLoop : Nat → Nat → Option Expr → PState → Option Expr × PState
  | 0, _, left, st => (left, pushErr st .outOfFuel)
  | fuel + 1, prec, left, st =>
      if ¬ nextTokenIs st .SEMICOLON ∧ prec < peekPrecedence st then
        match st.peek.type with
        | .PLUS | .MINUS | .SLASH | .STAR | .EQ | .NEQ | .LT | .GT =>
            match parseInfixExpression fuel left (advance st) with
            | (left2, st2) => parseInfixLoop fuel prec left2 st2
        | .LPAREN =>
            match parseCallExpression fuel left (advance st) with
            | (left2, st2) => parseInfixLoop fuel prec left2 st2
        | _ => (left, st)
      else (left, st)

/-- Go `Parser.parsePrefixExpression`. -/
def parsePrefixExpression : Nat → PState → Option Expr × PState
  | 0, st => (none, pushErr st .outOfFuel)
  | fuel + 1, st =>
      match parseExpression fuel PREFIX (advance st) with
      | (right, st1) =>
          (some (.PrefixExpression st.curr st.curr.literal right), st1)

/-- Go `Parser.parseInfixExpression` (current token is the operator). -/
def parseInfixExpression : Nat → Option Expr → PState → Option Expr × PState
  | 0, _, st => (none, pushErr st .outOfFuel)
  | fuel + 1, left, st =>
      match parseExpression fuel (currPrecedence st) (advance st) with
      | (right, st1) =>
          (some (.InfixExpression st.curr left st.curr.literal right), st1)

/-- Go `Parser.parseGroupedExpression`. -/
def parseGroupedExpression : Nat → PState → Option Expr × PState
  | 0, st => (none, pushErr st .outOfFuel)
  | fuel + 1, st =>
      match parseExpression fuel LOWEST (advance st) with
      | (e, st1) =>
          match advanceIfNextTokenIs st1 .RPAREN with
          | (false, st2) => (none, st2)
          | (true, st2) => (e, st2)

/-- Go `Parser.parseIfExpression`. -/
def parseIfExpression : Nat → PState → Option Expr × PState
  | 0, st => (none, pushErr st .outOfFuel)
  | fuel + 1, st =>
      match advanceIfNextTokenIs st .LPAREN with
      | (false, st1) => (none, st1)
      | (true, st1) =>
          match parseExpression fuel LOWEST (advance st1) with
          | (cond, st2) =>
              match advanceIfNextTokenIs st2 .RPAREN with
              | (false, st3) => (none, st3)
              | (true, st3) =>
                  match advanceIfNextTokenIs st3 .LBRACE with
                  | (false, st4) => (none, st4)
                  | (true, st4) =>
                      match parseBlockStatement fuel st4 with
                      | (cons, st5) =>
                          if nextTokenIs st5 .ELSE then
                            match advanceIfNextTokenIs (advance st5) .LBRACE with
                            | (false, st6) => (none, st6)
                            | (true, st6) =>
                                match parseBlockStatement fuel st6 with
                                | (alt, st7) =>
                                    (some (.IfExpression st.curr cond cons (some alt)), st7)
                          else (some (.IfExpression st.curr cond cons none), st5)

/-- Go `Parser.parseBlockStatement` (current token is `{`). -/
def parseBlockStatement : Nat → PState → Block × PState
  | 0, st => (.BlockStatement st.curr [], pushErr st .outOfFuel)
  | fuel + 1, st =>
      match parseBlockLoop fuel [] (advance st) with
      | (ss, st1) => (.BlockStatement st.curr ss, st1)

/-- The statement loop of `parseBlockStatement`: until `}` or EOF, parse a
statement, append it when present, advance. -/
def parseBlockLoop : Nat → List Stmt → PState → List Stmt × PState
  | 0, acc, st => (acc, pushErr st .outOfFuel)
  | fuel + 1, acc, st =>
      if ¬ currTokenIs st .RBRACE ∧ ¬ currTokenIs st .EOF then
        match parseStatement fuel st with
        | (some s, st1) => parseBlockLoop fuel (acc ++ [s]) (advance st1)
        | (none, st1) => parseBlockLoop fuel acc (advance st1)
      else (acc, st)

/-- Go `Parser.parseFunctionLiteral`. -/
def parseFunctionLiteral : Nat → PState → Option Expr × PState
  | 0, st => (none, pushErr st .outOfFuel)
  | fuel + 1, st =>
      match advanceIfNextTokenIs st .LPAREN with
      | (false, st1) => (none, st1)
      | (true, st1) =>
          match parseFunctionParameters fuel st1 with
          | (ps, st2) =>
              match advanceIfNextTokenIs st2 .LBRACE with
              | (false, st3) => (none, st3)
              | (true, st3) =>
                  match parseBlockStatement fuel st3 with
                  | (body, st4) => (some (.FunctionLiteral st.curr ps body), st4)

/-- Go `Parser.parseFunctionParameters` (current token is `(`). -/
def parseFunctionParameters : Nat → PState → Option (List Identifier) × PState
  | 0, st => (none, pushErr st .outOfFuel)
  | fuel + 1, st =>
      if nextTokenIs st .RPAREN then (some [], advance st)
      else
        parseFunctionParamsLoop fuel
          [⟨(advance st).curr, (advance st).curr.literal⟩] (advance st)

/-- The comma loop of `parseFunctionParameters`, then the required `)`. -/
def parseFunctionParamsLoop :
    Nat → List Identifier → PState → Option (List Identifier) × PState
  | 0, _, st => (none, pushErr st .outOfFuel)
  | fuel + 1, acc, st =>
      if nextTokenIs st .COMMA then
        parseFunctionParamsLoop fuel
          (acc ++ [⟨(advance (advance st)).curr, (advance (advance st)).curr.literal⟩])
          (advance (advance st))
      else
        match advanceIfNextTokenIs st .RPAREN with
        | (false, st1) => (none, st1)
        | (true, st1) => (some acc, st1)

/-- Go `Parser.parseCallExpression` (infix rule for `(`; current token is
`(`, `left` is the callee). -/
def parseCallExpression : Nat → Option Expr → PState → Option Expr × PState
  | 0, _, st => (none, pushErr st .outOfFuel)
  | fuel + 1, left, st =>
      match parseCallArguments fuel st with
      | (args, st1) => (some (.CallExpression st.curr left args), st1)

/-- Go `Parser.parseCallArguments`. -/
def parseCallArguments : Nat → PState → Option (List (Option Expr)) × PState
  | 0, st => (none, pushErr st .outOfFuel)
  | fuel + 1, st =>
      if nextTokenIs st .RPAREN then (some [], advance st)
      else
        match parseExpression fuel LOWEST (advance st) with
        | (a, st1) => parseCallArgsLoop fuel [a] st1

/-- The comma loop of `parseCallArguments`, then the required `)`. -/
def parseCallArgsLoop :
    Nat → List (Option Expr) → PState → Option (List (Option Expr)) × PState
  | 0, _, st => (none, pushErr st .outOfFuel)
  | fuel + 1, acc, st =>
      if nextTokenIs st .COMMA then
        match parseExpression fuel LOWEST (advance (advance st)) with
        | (a, st1) => parseCallArgsLoop fuel (acc ++ [a]) st1
      else
        match advanceIfNextTokenIs st .RPAREN with
        | (false, st1) => (none, st1)
        | (true, st1) => (some acc, st1)

end

/-- Go `Parser.ParseProgram`'s loop: until the current token is EOF, parse a
statement; a present statement flushes the progress trace and is appended,
an absent one is skipped; always advance one token. -/
def parseProgramLoop : Nat → Nat → List Stmt → PState → List Stmt × PState
  | fuelTop, innerFuel, acc, st =>
      if currTokenIs st .EOF then (acc, st)
      else
        match fuelTop with
        | 0 => (acc, pushErr st .outOfFuel)
        | f + 1 =>
            match parseStatement innerFuel st with
            | (some s, st1) => parseProgramLoop f innerFuel (acc ++ [s]) (advance (flushProgress st1))
            | (none, st1) => parseProgramLoop f innerFuel acc (advance st1)

/-- The loop measure: twice the pending-token count plus one for each of
`currToken`/`peekToken` not yet at EOF.  `advance` never increases it and
strictly decreases it whenever the current token is not EOF. -/
def stMeasure (st : PState) : Nat :=
  2 * st.rest.length + (if st.curr.type = .EOF then 0 else 1) +
    (if st.peek.type = .EOF then 0 else 1)

/-- Go `parser.New`: a fresh parser advances twice so that `currToken` and
`peekToken` are populated.  The zero `token.Token` has literal `""` (its
type is never inspected before the two advances), modelled by `eofTok`. -/
def initState (toks : List Tok) : PState :=
  advance (advance ⟨toks, eofTok, eofTok, [], []⟩)

/-- `lexer.New` + `parser.New` + `Parser.ParseProgram` over an input text.
The top-level fuel is the loop measure (enough to reach EOF, proved below);
the inner fuel bounds the recursion depth of one statement, which consumes
at least one fuel per mutual call, so any bound past the total call-tree
size is inert — `8 * stMeasure + 64` is far past it for the measure's worth
of tokens. -/
def parseProgram (s : List Char) : Program × PState :=
  match parseProgramLoop (stMeasure (initState (tokenize s 0)) + 1)
      (8 * stMeasure (initState (tokenize s 0)) + 64) [] (initState (tokenize s 0)) with
  | (ss, st) => (⟨ss⟩, st)

/-!
Claim theorems.
-/

/-- The eight binary operator token types with their literals. -/
def binOpPairs : List (TokType × List Char) :=
  [(.EQ, "==".toList), (.NEQ, "!=".toList), (.LT, "<".toList), (.GT, ">".toList),
   (.PLUS, "+".toList), (.MINUS, "-".toList), (.STAR, "*".toList), (.SLASH, "/".toList)]

/-- The program text `a <op1> b <op2> c`. -/
def assocInput (l1 l2 : List Char) : List Char :=
  "a ".toList ++ l1 ++ " b ".toList ++ l2 ++ " c".toList

/-- Left-associated rendering `((a <op1> b) <op2> c)`. -/
def leftShape (l1 l2 : List Char) : List Char :=
  "((a ".toList ++ l1 ++ " b) ".toList ++ l2 ++ " c)".toList

/-- Right-associated rendering `(a <op1> (b <op2> c))`. -/
def rightShape (l1 l2 : List Char) : List Char :=
  "(a ".toList ++ l1 ++ " (b ".toList ++ l2 ++ " c))".toList

/-- C1: the three literal precedence cases render as stated; the precedence
levels are ordered `EQUALS < LTGT(comparison) < SUM < PRODUCT < PREFIX <
CALL`; and for every pair of binary operators, `a op1 b op2 c` parses
left-associated exactly when `op2` does not bind strictly tighter than
`op1` (the strict `<` of the parse loop) — in particular equal precedence
always associates left. -/
theorem c1_precedence_and_left_assoc :
    programString (parseProgram "-a * b".toList).1 = some "((-a) * b)".toList ∧
    programString (parseProgram "a + b + c".toList).1 = some "((a + b) + c)".toList ∧
    programString (parseProgram "a + b * c + d / e - f".toList).1 =
      some "(((a + (b * c)) + (d / e)) - f)".toList ∧
    (EQUALS < LTGT ∧ LTGT < SUM ∧ SUM < PRODUCT ∧ PRODUCT < PREFIX ∧ PREFIX < CALL) ∧
    (binOpPairs.all fun p1 => binOpPairs.all fun p2 =>
      decide (programString (parseProgram (assocInput p1.2 p2.2)).1 =
        some (if (precedences p1.1).getD LOWEST < (precedences p2.1).getD LOWEST then
                rightShape p1.2 p2.2
              else leftShape p1.2 p2.2))) = true := by
  refine ⟨by decide, by decide, by decide, by decide, by decide⟩

theorem lookupIdent_cases (l : List Char) :
    lookupIdent l = .FUNCTION ∨ lookupIdent l = .LET ∨ lookupIdent l = .TRUE ∨
    lookupIdent l = .FALSE ∨ lookupIdent l = .IF ∨ lookupIdent l = .ELSE ∨
    lookupIdent l = .RETURN ∨ lookupIdent l = .NAME := by
  unfold lookupIdent
  repeat' split
  all_goals simp

theorem nextTokenTail_ne_assign_bang (s : List Char) (i : Nat) :
    (nextTokenTail s i).1.type ≠ .ASSIGN ∧ (nextTokenTail s i).1.type ≠ .BANG := by
  have h := lookupIdent_cases (slice s i (identEnd s i))
  unfold nextTokenTail
  repeat' split
  all_goals constructor
  all_goals intro hc
  all_goals simp at hc
  all_goals rcases h with h | h | h | h | h | h | h | h <;> simp_all

theorem nextTokenMid_ne_assign_bang (s : List Char) (i : Nat) :
    (nextTokenMid s i).1.type ≠ .ASSIGN ∧ (nextTokenMid s i).1.type ≠ .BANG := by
  have h := nextTokenTail_ne_assign_bang s i
  unfold nextTokenMid
  repeat' split
  all_goals constructor
  all_goals intro hc
  all_goals simp_all

theorem nextTokenAt_assign {s : List Char} {i : Nat}
    (h : (nextTokenAt s i).1.type = .ASSIGN) :
    charAt s i = '=' ∧ charAt s (i + 1) ≠ '=' ∧ (nextTokenAt s i).2 = i + 1 := by
  have hm := nextTokenMid_ne_assign_bang s i
  unfold nextTokenAt at h ⊢
  repeat' split at h
  all_goals simp_all

theorem nextTokenAt_bang {s : List Char} {i : Nat}
    (h : (nextTokenAt s i).1.type = .BANG) :
    charAt s i = '!' ∧ charAt s (i + 1) ≠ '=' ∧ (nextTokenAt s i).2 = i + 1 := by
  have hm := nextTokenMid_ne_assign_bang s i
  unfold nextTokenAt at h ⊢
  repeat' split at h
  all_goals simp_all

theorem nextTokenTail_eof_iff (s : List Char) (i : Nat) :
    (nextTokenTail s i).1.type = .EOF ↔ charAt s i = Char.ofNat 0 := by
  have h := lookupIdent_cases (slice s i (identEnd s i))
  unfold nextTokenTail
  repeat' split
  all_goals simp_all
  all_goals rcases h with h | h | h | h | h | h | h | h <;> simp_all

theorem nextTokenMid_eof_iff (s : List Char) (i : Nat) :
    (nextTokenMid s i).1.type = .EOF ↔ charAt s i = Char.ofNat 0 := by
  have h := nextTokenTail_eof_iff s i
  unfold nextTokenMid
  repeat' split
  all_goals simp_all

theorem nextTokenAt_eof_iff (s : List Char) (i : Nat) :
    (nextTokenAt s i).1.type = .EOF ↔ charAt s i = Char.ofNat 0 := by
  have h := nextTokenMid_eof_iff s i
  unfold nextTokenAt
  repeat' split
  all_goals simp_all

theorem nextTokenTail_nul {s : List Char} {i : Nat} (h : charAt s i = Char.ofNat 0) :
    nextTokenTail s i = (⟨.EOF, []⟩, i + 1) := by
  unfold nextTokenTail
  rw [h]
  rw [if_neg (by decide), if_neg (by decide), if_pos rfl]

theorem nextTokenMid_nul {s : List Char} {i : Nat} (h : charAt s i = Char.ofNat 0) :
    nextTokenMid s i = (⟨.EOF, []⟩, i + 1) := by
  unfold nextTokenMid
  rw [h]
  repeat rw [if_neg (by decide)]
  exact nextTokenTail_nul h

theorem nextTokenAt_nul {s : List Char} {i : Nat} (h : charAt s i = Char.ofNat 0) :
    nextTokenAt s i = (⟨.EOF, []⟩, i + 1) := by
  unfold nextTokenAt
  rw [h]
  repeat rw [if_neg (by decide)]
  exact nextTokenMid_nul h

theorem nextToken_eof_nul {s : List Char} {pos : Nat}
    (h : (nextToken s pos).1.type = .EOF) :
    charAt s (skipWs s pos) = Char.ofNat 0 ∧
      nextToken s pos = (⟨.EOF, []⟩, skipWs s pos + 1) := by
  unfold nextToken at h ⊢
  have hc := (nextTokenAt_eof_iff s (skipWs s pos)).mp h
  exact ⟨hc, nextTokenAt_nul hc⟩

/-- A NUL read inside the buffer exhibits a NUL member. -/
theorem len_le_of_charAt_nul {s : List Char} {i : Nat}
    (hmem : Char.ofNat 0 ∉ s) (h : charAt s i = Char.ofNat 0) : s.length ≤ i := by
  by_contra hc
  apply hmem
  rw [charAt] at h
  rw [dif_pos (by omega)] at h
  rw [← h]
  exact s.get_mem _ _

theorem nextTokenAt_eq_eq {s : List Char} {i : Nat}
    (h1 : charAt s i = '=') (h2 : charAt s (i + 1) = '=') :
    nextTokenAt s i = (⟨.EQ, ['=', '=']⟩, i + 2) := by
  unfold nextTokenAt
  rw [h1, h2]
  simp

theorem nextTokenAt_bang_eq {s : List Char} {i : Nat}
    (h1 : charAt s i = '!') (h2 : charAt s (i + 1) = '=') :
    nextTokenAt s i = (⟨.NEQ, ['!', '=']⟩, i + 2) := by
  unfold nextTokenAt
  rw [h1, h2]
  simp

/-- C3: wherever the scanner's post-whitespace position holds the
two-character sequence `==` (resp. `!=`), `NextToken` returns the single
atomic `EQ` (resp. `NEQ`) token carrying both characters and consumes both;
an `ASSIGN` (`=`) or `BANG` (`!`) token is never emitted with a `=`
immediately following it in the input, so `==`/`!=` are never split into two
single-character tokens; the token stream of `"10 == 10;\n10 != 9;"` is the
one the lexer test expects. -/
theorem c3_atomic_two_char_tokens :
    (∀ (s : List Char) (pos : Nat),
       charAt s (skipWs s pos) = '=' → charAt s (skipWs s pos + 1) = '=' →
       nextToken s pos = (⟨.EQ, ['=', '=']⟩, skipWs s pos + 2)) ∧
    (∀ (s : List Char) (pos : Nat),
       charAt s (skipWs s pos) = '!' → charAt s (skipWs s pos + 1) = '=' →
       nextToken s pos = (⟨.NEQ, ['!', '=']⟩, skipWs s pos + 2)) ∧
    (∀ (s : List Char) (pos : Nat),
       (nextToken s pos).1.type = .ASSIGN → charAt s ((nextToken s pos).2) ≠ '=') ∧
    (∀ (s : List Char) (pos : Nat),
       (nextToken s pos).1.type = .BANG → charAt s ((nextToken s pos).2) ≠ '=') ∧
    tokenize "10 == 10;\n10 != 9;".toList 0 =
      [⟨.INT, "10".toList⟩, ⟨.EQ, "==".toList⟩, ⟨.INT, "10".toList⟩, ⟨.SEMICOLON, [';']⟩,
       ⟨.INT, "10".toList⟩, ⟨.NEQ, "!=".toList⟩, ⟨.INT, "9".toList⟩, ⟨.SEMICOLON, [';']⟩] := by
  refine ⟨?_, ?_, ?_, ?_, by decide⟩
  · intro s pos h1 h2
    unfold nextToken
    exact nextTokenAt_eq_eq h1 h2
  · intro s pos h1 h2
    unfold nextToken
    exact nextTokenAt_bang_eq h1 h2
  · intro s pos h
    unfold nextToken at h ⊢
    obtain ⟨-, h2, hpos⟩ := nextTokenAt_assign h
    rw [hpos]
    exact h2
  · intro s pos h
    unfold nextToken at h ⊢
    obtain ⟨-, h2, hpos⟩ := nextTokenAt_bang h
    rw [hpos]
    exact h2

/-- C3 witness: the general parts instantiated on concrete inputs. -/
theorem c3_witness :
    nextToken "==".toList 0 = (⟨.EQ, ['=', '=']⟩, skipWs "==".toList 0 + 2) ∧
    nextToken "!=".toList 0 = (⟨.NEQ, ['!', '=']⟩, skipWs "!=".toList 0 + 2) ∧
    charAt "= a".toList ((nextToken "= a".toList 0).2) ≠ '=' ∧
    charAt "! a".toList ((nextToken "! a".toList 0).2) ≠ '=' :=
  ⟨c3_atomic_two_char_tokens.1 _ 0 (by decide) (by decide),
   c3_atomic_two_char_tokens.2.1 _ 0 (by decide) (by decide),
   c3_atomic_two_char_tokens.2.2.1 _ 0 (by decide),
   c3_atomic_two_char_tokens.2.2.2.1 _ 0 (by decide)⟩

/-- C8 counterexample: for the input `"\x00a"` (a NUL byte then a letter) the
first `NextToken` call returns the EOF token, yet the next call returns a
NAME token, not EOF — the claim's universal "once EOF, always EOF" fails on
inputs containing a NUL byte before the end. -/
theorem c8_counterexample :
    (nextToken [Char.ofNat 0, 'a'] 0).1.type = .EOF ∧
    (nextToken [Char.ofNat 0, 'a'] ((nextToken [Char.ofNat 0, 'a'] 0).2)).1.type ≠ .EOF := by
  decide

/-- C8 (amended): once the scanner's position is at or past the end of the
buffer, every `NextToken` call returns the EOF token with empty literal (and
keeps doing so, as the position only grows); consequently, for inputs
containing no NUL character — in particular every input over the language's
character set — once EOF has been returned, every subsequent call returns
EOF with empty literal. -/
theorem c8_eof_idempotent_amended :
    (∀ (s : List Char) (pos : Nat), s.length ≤ pos →
       nextToken s pos = (⟨.EOF, []⟩, pos + 1)) ∧
    (∀ (s : List Char) (pos : Nat), Char.ofNat 0 ∉ s →
       (nextToken s pos).1.type = .EOF →
       ∀ q, (nextToken s pos).2 ≤ q → nextToken s q = (⟨.EOF, []⟩, q + 1)) := by
  refine ⟨fun s pos h => nextToken_of_len_le h, ?_⟩
  intro s pos hmem h q hq
  obtain ⟨hnul, heq⟩ := nextToken_eof_nul h
  have hlen : s.length ≤ skipWs s pos := len_le_of_charAt_nul hmem hnul
  have : (nextToken s pos).2 = skipWs s pos + 1 := by rw [heq]
  exact nextToken_of_len_le (by omega)

/-- C8 witness: the amended theorem instantiated at a concrete input. -/
theorem c8_witness :
    nextToken "ab".toList 5 = (⟨.EOF, []⟩, 6) ∧
    nextToken "ab".toList 2 = (⟨.EOF, []⟩, 3) ∧
    nextToken "ab".toList ((nextToken "ab".toList 2).2) = (⟨.EOF, []⟩, 4) :=
  ⟨c8_eof_idempotent_amended.1 _ 5 (by decide),
   c8_eof_idempotent_amended.1 _ 2 (by decide),
   c8_eof_idempotent_amended.2 _ 2 (by decide) (by decide) _ (by decide)⟩

/-- C5: the input `"let = 5; let y 10;"` yields at least two diagnostics
(in fact three: the missing identifier, the orphaned `=` with no prefix
rule, and the missing `=` of the second `let`), while the parse continues
past each error — three statements are still produced and the loop reaches
EOF. -/
theorem c5_error_accumulation :
    2 ≤ (parseProgram "let = 5; let y 10;".toList).2.errors.length ∧
    (parseProgram "let = 5; let y 10;".toList).2.errors =
      [.expectedNext .NAME .ASSIGN [[], "let".toList],
       .noPrefixParseFn .ASSIGN,
       .expectedNext .ASSIGN .INT ["let".toList, "y".toList]] ∧
    (parseProgram "let = 5; let y 10;".toList).1.statements.length = 3 ∧
    (parseProgram "let = 5; let y 10;".toList).2.curr.type = .EOF := by
  refine ⟨by decide, by decide, by decide, by decide⟩

/-- C6 counterexample: the digit run `"08"` has decimal value 8, well inside
the 64-bit signed range, yet `ParseInt` with base 0 reads it as an invalid
octal literal: a "could not parse" diagnostic is recorded and the literal is
absent — so the diagnostic is not recorded *iff* the decimal value
overflows.  Likewise `"012"` parses with value 10 (octal), not its decimal
value 12. -/
theorem c6_counterexample :
    decVal "08".toList = 8 ∧ (8 : Nat) ≤ int64Max ∧
    (parseProgram "08".toList).2.errors = [.couldNotParseInt "08".toList] ∧
    (parseProgram "08".toList).1.statements =
      [.ExpressionStatement ⟨.INT, "08".toList⟩ none] ∧
    decVal "012".toList = 12 ∧
    (parseProgram "012".toList).2.errors = [] ∧
    (parseProgram "012".toList).1.statements =
      [.ExpressionStatement ⟨.INT, "012".toList⟩
        (some (.IntegerLiteral ⟨.INT, "012".toList⟩ 10))] := by
  refine ⟨by decide, by decide, by decide, by rfl, by decide, by decide, by rfl⟩

/-- C6 (amended): `parseIntegerLiteral` produces the literal with the value
`strconv.ParseInt(text, 0, 64)` yields, recording the diagnostic and
returning an absent literal exactly when that conversion fails.  For a digit
run without leading zero the value is the decimal value and failure happens
iff it exceeds the signed 64-bit range; a multi-digit run with leading `0`
is read as octal — its value is the octal value of the remaining digits,
and any digit above 7 (or octal overflow) is a conversion failure even
though the decimal value may fit.  End-to-end: `"0"` and the maximal int64
parse cleanly, one past it fails. -/
theorem c6_integer_literal_amended :
    (∀ (st : PState) (v : Int), goParseInt st.curr.literal = some v →
       parseIntegerLiteral st = (some (.IntegerLiteral st.curr v), st)) ∧
    (∀ (st : PState), goParseInt st.curr.literal = none →
       parseIntegerLiteral st = (none, pushErr st (.couldNotParseInt st.curr.literal))) ∧
    (∀ (l : List Char), l ≠ [] → l.all isDigit = true → l.head? ≠ some '0' →
       goParseInt l = if decVal l ≤ int64Max then some ((decVal l : Int)) else none) ∧
    (goParseInt ['0'] = some 0) ∧
    (∀ (l : List Char), l.all isDigit = true → l.head? = some '0' → 2 ≤ l.length →
       goParseInt l =
         if l.tail.all isOctDigit ∧ octVal l.tail ≤ int64Max then
           some ((octVal l.tail : Int))
         else none) ∧
    (parseProgram "9223372036854775807".toList).2.errors = [] ∧
    (parseProgram "9223372036854775808".toList).2.errors =
      [.couldNotParseInt "9223372036854775808".toList] := by
  refine ⟨?_, ?_, ?_, by decide, ?_, by decide, by decide⟩
  · intro st v h
    unfold parseIntegerLiteral
    rw [h]
  · intro st h
    unfold parseIntegerLiteral
    rw [h]
  · intro l h1 h2 h3
    unfold goParseInt
    rw [if_neg h1, if_neg (by simp [h2]), if_neg (by intro hc; exact h3 hc.1)]
  · intro l h1 h2 h3
    have hne : l ≠ [] := by
      intro hc
      rw [hc] at h2
      exact absurd h2 (by decide)
    unfold goParseInt
    rw [if_neg hne, if_neg (by simp [h1]), if_pos ⟨h2, h3⟩]

/-- C6 witness: the amended theorem's universal parts applied at concrete
literals and states. -/
theorem c6_witness :
    parseIntegerLiteral ⟨[], ⟨.INT, "45".toList⟩, eofTok, [], []⟩ =
      (some (.IntegerLiteral ⟨.INT, "45".toList⟩ 45), ⟨[], ⟨.INT, "45".toList⟩, eofTok, [], []⟩) ∧
    goParseInt "45".toList =
      (if decVal "45".toList ≤ int64Max then some ((decVal "45".toList : Int)) else none) ∧
    goParseInt "0777".toList =
      (if ("0777".toList.tail.all isOctDigit ∧ octVal "0777".toList.tail ≤ int64Max) then
        some ((octVal "0777".toList.tail : Int)) else none) :=
  ⟨c6_integer_literal_amended.1 _ 45 (by decide),
   c6_integer_literal_amended.2.2.1 _ (by decide) (by decide) (by decide),
   c6_integer_literal_amended.2.2.2.2.1 _ (by decide) (by decide) (by decide)⟩

/-- C2 counterexample: `"if (x) { y }"` parses cleanly (no diagnostics) into
one statement, but its canonical rendering is `"ifx y"` — `IfExpression.String`
writes no space after `if` and `BlockStatement.String` writes no braces — which
re-lexes as two identifiers and re-parses into a structurally different
two-statement program. -/
theorem c2_counterexample :
    (parseProgram "if (x) { y }".toList).2.errors = [] ∧
    programString (parseProgram "if (x) { y }".toList).1 = some "ifx y".toList ∧
    (parseProgram "if (x) { y }".toList).1.statements.length = 1 ∧
    (parseProgram "ifx y".toList).1.statements.length = 2 := by
  refine ⟨by decide, by decide, by decide, by decide⟩

/-- The spec's round-trip inputs that avoid if-expressions, function
literals and blocks, paired with their canonical renderings. -/
def roundtripPairs : List (List Char × List Char) :=
  [("-a * b".toList, "((-a) * b)".toList),
   ("!-a".toList, "(!(-a))".toList),
   ("a + b + c".toList, "((a + b) + c)".toList),
   ("a + b * c + d / e - f".toList, "(((a + (b * c)) + (d / e)) - f)".toList),
   ("1 + (1 + 3) + 4".toList, "((1 + (1 + 3)) + 4)".toList),
   ("a + add(b * c) + d".toList, "((a + add((b * c))) + d)".toList),
   ("add(1, 2 * 3, 4 + 5)".toList, "add(1, (2 * 3), (4 + 5))".toList),
   ("let x = 5;".toList, "let x = 5;".toList),
   ("return 5;".toList, "return 5;".toList),
   ("foobar".toList, "foobar".toList),
   ("true".toList, "true".toList)]

set_option maxHeartbeats 1000000 in
/-- C2 (amended): one render-parse pass is a fixed point at the level of the
canonical rendering for single-expression, `let` and `return` programs
without if-expressions, function literals or blocks — for each listed input
`P` with canonical text `Q`, parsing `P` is error-free and renders to `Q`,
and re-parsing `Q` is again error-free and renders to `Q` itself.  (Full
structural identity cannot hold in general: grouping parentheses in the
rendering change which token an `ExpressionStatement` records; if/fn/block
renderings are not even re-parsable, see the counterexample; and adjacent
expression statements such as `3 + 4; -5 * 5` render to text that re-parses
as a call expression.) -/
theorem c2_roundtrip_amended :
    (roundtripPairs.all fun pq =>
      decide ((parseProgram pq.1).2.errors = []) &&
      decide (programString (parseProgram pq.1).1 = some pq.2) &&
      decide ((parseProgram pq.2).2.errors = []) &&
      decide (programString (parseProgram pq.2).1 = some pq.2)) = true := by
  decide

/-- C9: statement dispatch on any token other than `let`/`return` goes
through `parseExpressionStatement`, which by construction always returns a
present statement; concretely, for the input `"+"` (no prefix rule for `+`)
a diagnostic is recorded, the statement's inner expression is absent, the
statement is still appended to the program, and the program renders as the
empty string. -/
theorem c9_expression_statement_present :
    (∀ (fuel : Nat) (st : PState), st.curr.type ≠ .LET → st.curr.type ≠ .RETURN →
       (parseStatement (fuel + 1) st).1 = some (parseExpressionStatement fuel st).1) ∧
    (parseProgram "+".toList).1.statements = [.ExpressionStatement ⟨.PLUS, ['+']⟩ none] ∧
    (parseProgram "+".toList).2.errors = [.noPrefixParseFn .PLUS] ∧
    programString (parseProgram "+".toList).1 = some [] := by
  refine ⟨?_, by rfl, by decide, by rfl⟩
  intro fuel st h1 h2
  unfold parseStatement
  cases hc : st.curr.type <;> simp_all

/-- C9 witness: the dispatch conjunct applied at a concrete state whose
current token is `+`. -/
theorem c9_witness :
    (parseStatement 4 ⟨[], ⟨.PLUS, ['+']⟩, eofTok, [], []⟩).1 =
      some (parseExpressionStatement 3 ⟨[], ⟨.PLUS, ['+']⟩, eofTok, [], []⟩).1 :=
  c9_expression_statement_present.1 3 _ (by decide) (by decide)

/-- C10: rendering statements with an absent expression child is total —
a `LetStatement` with absent value renders as `let <name> = ;`, a
`ReturnStatement` as `return ;` (via its token literal), an
`ExpressionStatement` as the empty string — whereas `PrefixExpression`,
`InfixExpression`, `IfExpression` and `CallExpression` dereference their
operand children unconditionally, so rendering them with an absent operand
is the modelled panic (`none`). -/
theorem c10_render_absent_children :
    (∀ (t : Tok) (name : Identifier),
       stmtString (.LetStatement t name none) =
         some (t.literal ++ [' '] ++ name.value ++ " = ;".toList)) ∧
    stmtString (.LetStatement ⟨.LET, "let".toList⟩ ⟨⟨.NAME, ['x']⟩, ['x']⟩ none) =
      some "let x = ;".toList ∧
    (∀ (t : Tok), stmtString (.ReturnStatement t none) = some (t.literal ++ " ;".toList)) ∧
    (∀ (t : Tok), stmtString (.ExpressionStatement t none) = some []) ∧
    (∀ (t : Tok) (op : List Char), exprString (.PrefixExpression t op none) = none) ∧
    (∀ (t : Tok) (l : Option Expr) (op : List Char) (r : Option Expr),
       l = none ∨ r = none → exprString (.InfixExpression t l op r) = none) ∧
    (∀ (t : Tok) (cons : Block) (alt : Option Block),
       exprString (.IfExpression t none cons alt) = none) ∧
    (∀ (t : Tok) (args : Option (List (Option Expr))),
       exprString (.CallExpression t none args) = none) := by
  refine ⟨fun t name => rfl, by rfl, fun t => rfl, fun t => rfl, fun t op => rfl,
    ?_, ?_, ?_⟩
  · intro t l op r h
    have heq : exprString (.InfixExpression t l op r) =
        match optExprString l, optExprString r with
        | some ls, some rs => some ('(' :: (ls ++ [' '] ++ op ++ [' '] ++ rs ++ [')']))
        | _, _ => none := rfl
    rw [heq]
    rcases h with h | h
    · rw [h]
      cases optExprString r <;> rfl
    · rw [h]
      cases optExprString l <;> rfl
  · intro t cons alt
    rfl
  · intro t args
    rfl

/-- C10 witness: the conditional conjunct applied with a present left
operand and absent right operand. -/
theorem c10_witness :
    exprString (.InfixExpression ⟨.PLUS, ['+']⟩
      (some (.Ident ⟨⟨.NAME, ['a']⟩, ['a']⟩)) ['+'] none) = none :=
  c10_render_absent_children.2.2.2.2.2.1 _ _ _ _ (Or.inr rfl)

/-!
Termination of `ParseProgram` (C4).  Every state change of the parser goes
through `advance` (plus error/trace bookkeeping that leaves the cursor
alone); `advance` never increases `stMeasure` and strictly decreases it
whenever the current token is not EOF.  `Step a b` says `b` is reachable
from `a` by parser operations: the measure has not increased, and — when
parsing started off EOF — either the cursor is untouched or the measure
strictly dropped.  One loop iteration (statement parse + `advance`) then
strictly decreases the measure, so fuel `stMeasure + 1` always reaches EOF.
-/

/-- The cursor fields are untouched. -/
def Keep (a b : PState) : Prop :=
  b.rest = a.rest ∧ b.curr = a.curr ∧ b.peek = a.peek

/-- Reachability property of one parser call: the measure has not grown,
and from a non-EOF state either nothing was consumed or the measure strictly
dropped. -/
def Step (a b : PState) : Prop :=
  stMeasure b ≤ stMeasure a ∧
    (a.curr.type ≠ .EOF → Keep a b ∨ stMeasure b < stMeasure a)

theorem stMeasure_congr {a b : PState} (h : Keep a b) : stMeasure b = stMeasure a := by
  obtain ⟨h1, h2, h3⟩ := h
  unfold stMeasure
  rw [h1, h2, h3]

theorem Step_refl (a : PState) : Step a a :=
  ⟨Nat.le_refl _, fun _ => Or.inl ⟨rfl, rfl, rfl⟩⟩

theorem Keep_pushErr (a : PState) (d : Diag) : Keep a (pushErr a d) :=
  ⟨rfl, rfl, rfl⟩

theorem Step_pushErr (a : PState) (d : Diag) : Step a (pushErr a d) :=
  ⟨Nat.le_of_eq (stMeasure_congr (Keep_pushErr a d)), fun _ => Or.inl (Keep_pushErr a d)⟩

theorem Keep_flush (a : PState) : Keep a (flushProgress a) :=
  ⟨rfl, rfl, rfl⟩

theorem stMeasure_advance_le (a : PState) : stMeasure (advance a) ≤ stMeasure a := by
  obtain ⟨rest, curr, peek, errs, prog⟩ := a
  cases rest with
  | nil =>
      simp only [advance, stMeasure, List.length_nil, eofTok]
      repeat' split
      all_goals first | omega | simp_all
  | cons t ts =>
      simp only [advance, stMeasure, List.length_cons, eofTok]
      repeat' split
      all_goals first | omega | simp_all

theorem stMeasure_advance_lt {a : PState} (h : a.curr.type ≠ .EOF) :
    stMeasure (advance a) < stMeasure a := by
  obtain ⟨rest, curr, peek, errs, prog⟩ := a
  simp only at h
  cases rest with
  | nil =>
      simp only [advance, stMeasure, List.length_nil, eofTok]
      rw [if_neg h]
      repeat' split
      all_goals first | omega | simp_all
  | cons t ts =>
      simp only [advance, stMeasure, List.length_cons, eofTok]
      rw [if_neg h]
      repeat' split
      all_goals first | omega | simp_all

/-- `advance`'s cursor output depends only on the cursor input. -/
theorem advance_measure_congr {a b : PState} (h : Keep a b) :
    stMeasure (advance b) = stMeasure (advance a) := by
  obtain ⟨h1, h2, h3⟩ := h
  obtain ⟨rest, curr, peek, errs, prog⟩ := a
  obtain ⟨rest2, curr2, peek2, errs2, prog2⟩ := b
  simp only at h1 h2 h3
  subst h1
  subst h2
  subst h3
  cases rest2 <;> simp [advance, stMeasure]

theorem Step_trans {a b c : PState} (hab : Step a b) (hbc : Step b c) : Step a c := by
  obtain ⟨le1, d1⟩ := hab
  obtain ⟨le2, d2⟩ := hbc
  refine ⟨Nat.le_trans le2 le1, fun hne => ?_⟩
  rcases d1 hne with hk | hlt
  · have hb : b.curr.type ≠ .EOF := by
      rw [hk.2.1]
      exact hne
    rcases d2 hb with hk2 | hlt2
    · exact Or.inl ⟨hk2.1.trans hk.1, hk2.2.1.trans hk.2.1, hk2.2.2.trans hk.2.2⟩
    · right
      rw [← stMeasure_congr hk]
      exact hlt2
  · exact Or.inr (Nat.lt_of_le_of_lt le2 hlt)

theorem Step_advance (a : PState) : Step a (advance a) :=
  ⟨stMeasure_advance_le a, fun h => Or.inr (stMeasure_advance_lt h)⟩

theorem Step_aifnt (a : PState) (t : TokType) : Step a (advanceIfNextTokenIs a t).2 := by
  unfold advanceIfNextTokenIs
  split
  · exact Step_advance a
  · exact Step_pushErr a _

/-- Transport `Step` along an equation for a parse-function result pair. -/
theorem Step_snd_of_eq {α : Type} {a : PState} {p : α × PState} {x : α} {b : PState}
    (h : p = (x, b)) (hs : Step a p.2) : Step a b := by
  rw [h] at hs
  exact hs

theorem Step_parseIntegerLiteral (st : PState) : Step st (parseIntegerLiteral st).2 := by
  unfold parseIntegerLiteral
  cases goParseInt st.curr.literal
  · exact Step_pushErr st _
  · exact Step_refl st

/-- Every parse function's output state is `Step`-reachable from its input
state: the measure never grows, and from a non-EOF state the cursor is
either untouched or the measure strictly dropped. -/
theorem parseStep (fuel : Nat) :
    (∀ st, Step st (parseStatement fuel st).2) ∧
    (∀ st, Step st (parseLetStatement fuel st).2) ∧
    (∀ st, Step st (parseReturnStatement fuel st).2) ∧
    (∀ st, Step st (parseExpressionStatement fuel st).2) ∧
    (∀ st, Step st (eatSemis fuel st)) ∧
    (∀ prec st, Step st (parseExpression fuel prec st).2) ∧
    (∀ st, Step st (parseNud fuel st).2) ∧
    (∀ prec left st, Step st (parseInfixLoop fuel prec left st).2) ∧
    (∀ st, Step st (parsePrefixExpression fuel st).2) ∧
    (∀ left st, Step st (parseInfixExpression fuel left st).2) ∧
    (∀ st, Step st (parseGroupedExpression fuel st).2) ∧
    (∀ st, Step st (parseIfExpression fuel st).2) ∧
    (∀ st, Step st (parseBlockStatement fuel st).2) ∧
    (∀ acc st, Step st (parseBlockLoop fuel acc st).2) ∧
    (∀ st, Step st (parseFunctionLiteral fuel st).2) ∧
    (∀ st, Step st (parseFunctionParameters fuel st).2) ∧
    (∀ acc st, Step st (parseFunctionParamsLoop fuel acc st).2) ∧
    (∀ left st, Step st (parseCallExpression fuel left st).2) ∧
    (∀ st, Step st (parseCallArguments fuel st).2) ∧
    (∀ acc st, Step st (parseCallArgsLoop fuel acc st).2) := by
  induction fuel with
  | zero =>
      refine ⟨fun st => Step_pushErr st _, fun st => Step_pushErr st _,
        fun st => Step_pushErr st _, fun st => Step_pushErr st _,
        fun st => Step_pushErr st _, fun prec st => Step_pushErr st _,
        fun st => Step_pushErr st _, fun prec left st => Step_pushErr st _,
        fun st => Step_pushErr st _, fun left st => Step_pushErr st _,
        fun st => Step_pushErr st _, fun st => Step_pushErr st _,
        fun st => Step_pushErr st _, fun acc st => Step_pushErr st _,
        fun st => Step_pushErr st _, fun st => Step_pushErr st _,
        fun acc st => Step_pushErr st _, fun left st => Step_pushErr st _,
        fun st => Step_pushErr st _, fun acc st => Step_pushErr st _⟩
  | succ fuel ih =>
      obtain ⟨ihStmt, ihLet, ihRet, ihExprStmt, ihSemis, ihExpr, ihNud, ihLoop,
        ihPre, ihInf, ihGrp, ihIf, ihBlock, ihBlockLoop, ihFn, ihParams,
        ihParamsLoop, ihCall, ihArgs, ihArgsLoop⟩ := ih
      refine ⟨?_, ?_, ?_, ?_, ?_, ?_, ?_, ?_, ?_, ?_, ?_, ?_, ?_, ?_, ?_, ?_, ?_, ?_, ?_, ?_⟩
      -- parseStatement
      · intro st
        unfold parseStatement
        try dsimp only
        rcases h : parseExpressionStatement fuel st with ⟨s, st1⟩
        cases st.curr.type
        all_goals first
          | exact ihLet st
          | exact ihRet st
          | exact Step_snd_of_eq h (ihExprStmt st)
      -- parseLetStatement
      · intro st
        unfold parseLetStatement
        try dsimp only
        rcases h1 : advanceIfNextTokenIs st .NAME with ⟨b1, st1⟩
        have s1 : Step st st1 := Step_snd_of_eq h1 (Step_aifnt st .NAME)
        cases b1
        · exact s1
        · try dsimp only
          rcases h2 : advanceIfNextTokenIs st1 .ASSIGN with ⟨b2, st2⟩
          have s2 : Step st st2 := Step_trans s1 (Step_snd_of_eq h2 (Step_aifnt st1 .ASSIGN))
          cases b2
          · exact s2
          · try dsimp only
            rcases h3 : parseExpression fuel LOWEST (advance st2) with ⟨v, st3⟩
            exact Step_trans s2 (Step_trans (Step_advance st2)
              (Step_trans (Step_snd_of_eq h3 (ihExpr LOWEST (advance st2))) (ihSemis st3)))
      -- parseReturnStatement
      · intro st
        unfold parseReturnStatement
        try dsimp only
        rcases h : parseExpression fuel LOWEST (advance st) with ⟨v, st1⟩
        exact Step_trans (Step_advance st)
          (Step_trans (Step_snd_of_eq h (ihExpr LOWEST (advance st))) (ihSemis st1))
      -- parseExpressionStatement
      · intro st
        unfold parseExpressionStatement
        try dsimp only
        rcases h : parseExpression fuel LOWEST st with ⟨e, st1⟩
        have s1 : Step st st1 := Step_snd_of_eq h (ihExpr LOWEST st)
        split
        · exact Step_trans s1 (Step_advance st1)
        · exact s1
      -- eatSemis
      · intro st
        unfold eatSemis
        split
        · exact Step_trans (Step_advance st) (ihSemis (advance st))
        · exact Step_refl st
      -- parseExpression
      · intro prec st
        unfold parseExpression
        split
        · try dsimp only
          rcases h : parseNud fuel st with ⟨l, st1⟩
          exact Step_trans (Step_snd_of_eq h (ihNud st)) (ihLoop prec l st1)
        · exact Step_pushErr st _
      -- parseNud
      · intro st
        unfold parseNud
        cases st.curr.type
        all_goals first
          | exact Step_refl st
          | exact Step_parseIntegerLiteral st
          | exact ihPre st
          | exact ihGrp st
          | exact ihIf st
          | exact ihFn st
      -- parseInfixLoop
      · intro prec left st
        unfold parseInfixLoop
        split
        · try dsimp only
          rcases hi : parseInfixExpression fuel left (advance st) with ⟨l2, st2⟩
          try dsimp only
          rcases hc : parseCallExpression fuel left (advance st) with ⟨l3, st3⟩
          cases st.peek.type
          all_goals first
            | exact Step_refl st
            | exact Step_trans (Step_advance st)
                (Step_trans (Step_snd_of_eq hi (ihInf left (advance st)))
                  (ihLoop prec l2 st2))
            | exact Step_trans (Step_advance st)
                (Step_trans (Step_snd_of_eq hc (ihCall left (advance st)))
                  (ihLoop prec l3 st3))
        · exact Step_refl st
      -- parsePrefixExpression
      · intro st
        unfold parsePrefixExpression
        try dsimp only
        rcases h : parseExpression fuel PREFIX (advance st) with ⟨r, st1⟩
        exact Step_trans (Step_advance st) (Step_snd_of_eq h (ihExpr PREFIX (advance st)))
      -- parseInfixExpression
      · intro left st
        unfold parseInfixExpression
        try dsimp only
        rcases h : parseExpression fuel (currPrecedence st) (advance st) with ⟨r, st1⟩
        exact Step_trans (Step_advance st)
          (Step_snd_of_eq h (ihExpr (currPrecedence st) (advance st)))
      -- parseGroupedExpression
      · intro st
        unfold parseGroupedExpression
        try dsimp only
        rcases h : parseExpression fuel LOWEST (advance st) with ⟨e, st1⟩
        have s1 : Step st st1 :=
          Step_trans (Step_advance st) (Step_snd_of_eq h (ihExpr LOWEST (advance st)))
        try dsimp only
        rcases h2 : advanceIfNextTokenIs st1 .RPAREN with ⟨b2, st2⟩
        have s2 : Step st st2 := Step_trans s1 (Step_snd_of_eq h2 (Step_aifnt st1 .RPAREN))
        cases b2
        · exact s2
        · exact s2
      -- parseIfExpression
      · intro st
        unfold parseIfExpression
        try dsimp only
        rcases h1 : advanceIfNextTokenIs st .LPAREN with ⟨b1, st1⟩
        have s1 : Step st st1 := Step_snd_of_eq h1 (Step_aifnt st .LPAREN)
        cases b1
        · exact s1
        · try dsimp only
          rcases h2 : parseExpression fuel LOWEST (advance st1) with ⟨cond, st2⟩
          have s2 : Step st st2 := Step_trans s1 (Step_trans (Step_advance st1)
            (Step_snd_of_eq h2 (ihExpr LOWEST (advance st1))))
          try dsimp only
          rcases h3 : advanceIfNextTokenIs st2 .RPAREN with ⟨b3, st3⟩
          have s3 : Step st st3 := Step_trans s2 (Step_snd_of_eq h3 (Step_aifnt st2 .RPAREN))
          cases b3
          · exact s3
          · try dsimp only
            rcases h4 : advanceIfNextTokenIs st3 .LBRACE with ⟨b4, st4⟩
            have s4 : Step st st4 := Step_trans s3 (Step_snd_of_eq h4 (Step_aifnt st3 .LBRACE))
            cases b4
            · exact s4
            · try dsimp only
              rcases h5 : parseBlockStatement fuel st4 with ⟨cons, st5⟩
              have s5 : Step st st5 := Step_trans s4 (Step_snd_of_eq h5 (ihBlock st4))
              split
              · try dsimp only
                rcases h6 : advanceIfNextTokenIs (advance st5) .LBRACE with ⟨b6, st6⟩
                have s6 : Step st st6 := Step_trans s5 (Step_trans (Step_advance st5)
                  (Step_snd_of_eq h6 (Step_aifnt (advance st5) .LBRACE)))
                cases b6
                · exact s6
                · try dsimp only
                  rcases h7 : parseBlockStatement fuel st6 with ⟨alt, st7⟩
                  exact Step_trans s6 (Step_snd_of_eq h7 (ihBlock st6))
              · exact s5
      -- parseBlockStatement
      · intro st
        unfold parseBlockStatement
        try dsimp only
        rcases h : parseBlockLoop fuel [] (advance st) with ⟨ss, st1⟩
        exact Step_trans (Step_advance st) (Step_snd_of_eq h (ihBlockLoop [] (advance st)))
      -- parseBlockLoop
      · intro acc st
        unfold parseBlockLoop
        split
        · try dsimp only
          rcases h : parseStatement fuel st with ⟨os, st1⟩
          have s1 : Step st st1 := Step_snd_of_eq h (ihStmt st)
          cases os
          · exact Step_trans s1 (Step_trans (Step_advance st1)
              (ihBlockLoop acc (advance st1)))
          · exact Step_trans s1 (Step_trans (Step_advance st1)
              (ihBlockLoop _ (advance st1)))
        · exact Step_refl st
      -- parseFunctionLiteral
      · intro st
        unfold parseFunctionLiteral
        try dsimp only
        rcases h1 : advanceIfNextTokenIs st .LPAREN with ⟨b1, st1⟩
        have s1 : Step st st1 := Step_snd_of_eq h1 (Step_aifnt st .LPAREN)
        cases b1
        · exact s1
        · try dsimp only
          rcases h2 : parseFunctionParameters fuel st1 with ⟨ps, st2⟩
          have s2 : Step st st2 := Step_trans s1 (Step_snd_of_eq h2 (ihParams st1))
          try dsimp only
          rcases h3 : advanceIfNextTokenIs st2 .LBRACE with ⟨b3, st3⟩
          have s3 : Step st st3 := Step_trans s2 (Step_snd_of_eq h3 (Step_aifnt st2 .LBRACE))
          cases b3
          · exact s3
          · try dsimp only
            rcases h4 : parseBlockStatement fuel st3 with ⟨body, st4⟩
            exact Step_trans s3 (Step_snd_of_eq h4 (ihBlock st3))
      -- parseFunctionParameters
      · intro st
        rw [show parseFunctionParameters (fuel + 1) st =
          (if nextTokenIs st .RPAREN then (some [], advance st)
           else parseFunctionParamsLoop fuel
             [⟨(advance st).curr, (advance st).curr.literal⟩] (advance st)) from rfl]
        split
        · exact Step_advance st
        · exact Step_trans (Step_advance st) (ihParamsLoop _ (advance st))
      -- parseFunctionParamsLoop
      · intro acc st
        unfold parseFunctionParamsLoop
        split
        · exact Step_trans (Step_advance st)
            (Step_trans (Step_advance (advance st)) (ihParamsLoop _ (advance (advance st))))
        · try dsimp only
          rcases h : advanceIfNextTokenIs st .RPAREN with ⟨b, st1⟩
          have s1 : Step st st1 := Step_snd_of_eq h (Step_aifnt st .RPAREN)
          cases b
          · exact s1
          · exact s1
      -- parseCallExpression
      · intro left st
        unfold parseCallExpression
        try dsimp only
        rcases h : parseCallArguments fuel st with ⟨args, st1⟩
        exact Step_snd_of_eq h (ihArgs st)
      -- parseCallArguments
      · intro st
        unfold parseCallArguments
        split
        · exact Step_advance st
        · try dsimp only
          rcases h : parseExpression fuel LOWEST (advance st) with ⟨a, st1⟩
          exact Step_trans (Step_advance st)
            (Step_trans (Step_snd_of_eq h (ihExpr LOWEST (advance st)))
              (ihArgsLoop [a] st1))
      -- parseCallArgsLoop
      · intro acc st
        unfold parseCallArgsLoop
        split
        · try dsimp only
          rcases h : parseExpression fuel LOWEST (advance (advance st)) with ⟨a, st1⟩
          exact Step_trans (Step_advance st)
            (Step_trans (Step_advance (advance st))
              (Step_trans (Step_snd_of_eq h (ihExpr LOWEST (advance (advance st))))
                (ihArgsLoop _ st1)))
        · try dsimp only
          rcases h : advanceIfNextTokenIs st .RPAREN with ⟨b, st1⟩
          have s1 : Step st st1 := Step_snd_of_eq h (Step_aifnt st .RPAREN)
          cases b
          · exact s1
          · exact s1

theorem Keep_flush' (a : PState) : Keep a (flushProgress a) :=
  ⟨rfl, rfl, rfl⟩

/-- With fuel beyond the measure, the `ParseProgram` loop always exits by
reaching EOF, never by running out of fuel. -/
theorem parseProgramLoop_reaches_eof :
    ∀ (fuelTop innerFuel : Nat) (acc : List Stmt) (st : PState),
      stMeasure st < fuelTop →
      ((parseProgramLoop fuelTop innerFuel acc st).2).curr.type = .EOF := by
  intro fuelTop
  induction fuelTop with
  | zero =>
      intro inner acc st h
      exact absurd h (Nat.not_lt_zero _)
  | succ f ih =>
      intro inner acc st h
      unfold parseProgramLoop
      split
      · rename_i hEof
        simp only [currTokenIs] at hEof
        simpa using hEof
      · rename_i hNe
        simp only [currTokenIs] at hNe
        have hNe' : st.curr.type ≠ .EOF := by simpa using hNe
        rcases h1 : parseStatement inner st with ⟨os, st1⟩
        try dsimp only
        have hs : Step st st1 := Step_snd_of_eq h1 ((parseStep inner).1 st)
        obtain ⟨hle, hdich⟩ := hs
        cases os
        · -- skipped statement
          apply ih
          rcases hdich hNe' with hk | hlt
          · rw [advance_measure_congr hk]
            have := stMeasure_advance_lt hNe'
            omega
          · have := stMeasure_advance_le st1
            omega
        · -- appended statement (progress flushed first)
          apply ih
          rw [advance_measure_congr (Keep_flush' st1)]
          rcases hdich hNe' with hk | hlt
          · rw [advance_measure_congr hk]
            have := stMeasure_advance_lt hNe'
            omega
          · have := stMeasure_advance_le st1
            omega

/-- C4: `ParseProgram` terminates on every finite input — the top-level loop
always reaches the EOF token (even after arbitrary errors, with absent
statements simply skipped), because each iteration advances the token cursor
by at least one token: from any non-EOF state, `advance` strictly decreases
the remaining-token measure. -/
theorem c4_parse_program_terminates :
    (∀ (s : List Char), ((parseProgram s).2).curr.type = .EOF) ∧
    (∀ (st : PState), st.curr.type ≠ .EOF → stMeasure (advance st) < stMeasure st) := by
  constructor
  · intro s
    unfold parseProgram
    rcases h : parseProgramLoop (stMeasure (initState (tokenize s 0)) + 1)
        (8 * stMeasure (initState (tokenize s 0)) + 64) [] (initState (tokenize s 0))
      with ⟨ss, st⟩
    try dsimp only
    have := parseProgramLoop_reaches_eof (stMeasure (initState (tokenize s 0)) + 1)
      (8 * stMeasure (initState (tokenize s 0)) + 64) [] (initState (tokenize s 0))
      (Nat.lt_succ_self _)
    rw [h] at this
    exact this
  · exact fun st h => stMeasure_advance_lt h

/-- C4 witness: the loop reaches EOF on a concrete input, and `advance`
strictly shrinks the measure at a concrete non-EOF state. -/
theorem c4_witness :
    ((parseProgram "let x = 5; let y 10;".toList).2).curr.type = .EOF ∧
    stMeasure (advance ⟨[], ⟨.INT, ['1']⟩, eofTok, [], []⟩) <
      stMeasure ⟨[], ⟨.INT, ['1']⟩, eofTok, [], []⟩ :=
  ⟨c4_parse_program_terminates.1 _,
   c4_parse_program_terminates.2 _ (by decide)⟩

/-!
No-error completeness (C7).  Diagnostics are append-only: every parse
function's output error list extends its input error list (`EPre`).  When a
whole call adds no diagnostic, each of its stages added none, and every
branch that degrades a node to absent records a diagnostic first — so an
error-free parse contains no absent required child.
-/

/-- The error list only ever grows (by appending). -/
def EPre (a b : PState) : Prop :=
  a.errors <+: b.errors

theorem errors_advance (st : PState) : (advance st).errors = st.errors := by
  cases h : st.rest <;> simp [advance, h]

theorem EPre_refl (a : PState) : EPre a a :=
  List.prefix_refl _

theorem EPre_trans {a b c : PState} (h1 : EPre a b) (h2 : EPre b c) : EPre a c :=
  List.IsPrefix.trans h1 h2

theorem EPre_advance (a : PState) : EPre a (advance a) := by
  unfold EPre
  rw [errors_advance]

theorem EPre_pushErr (a : PState) (d : Diag) : EPre a (pushErr a d) :=
  ⟨[d], rfl⟩

theorem EPre_flush (a : PState) : EPre a (flushProgress a) :=
  List.prefix_refl _

theorem EPre_aifnt (a : PState) (t : TokType) : EPre a (advanceIfNextTokenIs a t).2 := by
  unfold advanceIfNextTokenIs
  split
  · exact EPre_advance a
  · exact EPre_pushErr a _

theorem EPre_snd_of_eq {α : Type} {a : PState} {p : α × PState} {x : α} {b : PState}
    (h : p = (x, b)) (hs : EPre a p.2) : EPre a b := by
  rw [h] at hs
  exact hs

theorem EPre_parseIntegerLiteral (st : PState) : EPre st (parseIntegerLiteral st).2 := by
  unfold parseIntegerLiteral
  cases goParseInt st.curr.literal
  · exact EPre_pushErr st _
  · exact EPre_refl st

/-- Every parse function only appends to the diagnostics list. -/
theorem parseEPre (fuel : Nat) :
    (∀ st, EPre st (parseStatement fuel st).2) ∧
    (∀ st, EPre st (parseLetStatement fuel st).2) ∧
    (∀ st, EPre st (parseReturnStatement fuel st).2) ∧
    (∀ st, EPre st (parseExpressionStatement fuel st).2) ∧
    (∀ st, EPre st (eatSemis fuel st)) ∧
    (∀ prec st, EPre st (parseExpression fuel prec st).2) ∧
    (∀ st, EPre st (parseNud fuel st).2) ∧
    (∀ prec left st, EPre st (parseInfixLoop fuel prec left st).2) ∧
    (∀ st, EPre st (parsePrefixExpression fuel st).2) ∧
    (∀ left st, EPre st (parseInfixExpression fuel left st).2) ∧
    (∀ st, EPre st (parseGroupedExpression fuel st).2) ∧
    (∀ st, EPre st (parseIfExpression fuel st).2) ∧
    (∀ st, EPre st (parseBlockStatement fuel st).2) ∧
    (∀ acc st, EPre st (parseBlockLoop fuel acc st).2) ∧
    (∀ st, EPre st (parseFunctionLiteral fuel st).2) ∧
    (∀ st, EPre st (parseFunctionParameters fuel st).2) ∧
    (∀ acc st, EPre st (parseFunctionParamsLoop fuel acc st).2) ∧
    (∀ left st, EPre st (parseCallExpression fuel left st).2) ∧
    (∀ st, EPre st (parseCallArguments fuel st).2) ∧
    (∀ acc st, EPre st (parseCallArgsLoop fuel acc st).2) := by
  induction fuel with
  | zero =>
      refine ⟨fun st => EPre_pushErr st _, fun st => EPre_pushErr st _,
        fun st => EPre_pushErr st _, fun st => EPre_pushErr st _,
        fun st => EPre_pushErr st _, fun prec st => EPre_pushErr st _,
        fun st => EPre_pushErr st _, fun prec left st => EPre_pushErr st _,
        fun st => EPre_pushErr st _, fun left st => EPre_pushErr st _,
        fun st => EPre_pushErr st _, fun st => EPre_pushErr st _,
        fun st => EPre_pushErr st _, fun acc st => EPre_pushErr st _,
        fun st => EPre_pushErr st _, fun st => EPre_pushErr st _,
        fun acc st => EPre_pushErr st _, fun left st => EPre_pushErr st _,
        fun st => EPre_pushErr st _, fun acc st => EPre_pushErr st _⟩
  | succ fuel ih =>
      obtain ⟨ihStmt, ihLet, ihRet, ihExprStmt, ihSemis, ihExpr, ihNud, ihLoop,
        ihPre, ihInf, ihGrp, ihIf, ihBlock, ihBlockLoop, ihFn, ihParams,
        ihParamsLoop, ihCall, ihArgs, ihArgsLoop⟩ := ih
      refine ⟨?_, ?_, ?_, ?_, ?_, ?_, ?_, ?_, ?_, ?_, ?_, ?_, ?_, ?_, ?_, ?_, ?_, ?_, ?_, ?_⟩
      -- parseStatement
      · intro st
        unfold parseStatement
        rcases h : parseExpressionStatement fuel st with ⟨s, st1⟩
        cases st.curr.type
        all_goals first
          | exact ihLet st
          | exact ihRet st
          | exact EPre_snd_of_eq h (ihExprStmt st)
      -- parseLetStatement
      · intro st
        unfold parseLetStatement
        rcases h1 : advanceIfNextTokenIs st .NAME with ⟨b1, st1⟩
        have s1 : EPre st st1 := EPre_snd_of_eq h1 (EPre_aifnt st .NAME)
        cases b1
        · exact s1
        · try dsimp only
          rcases h2 : advanceIfNextTokenIs st1 .ASSIGN with ⟨b2, st2⟩
          have s2 : EPre st st2 := EPre_trans s1 (EPre_snd_of_eq h2 (EPre_aifnt st1 .ASSIGN))
          cases b2
          · exact s2
          · try dsimp only
            rcases h3 : parseExpression fuel LOWEST (advance st2) with ⟨v, st3⟩
            exact EPre_trans s2 (EPre_trans (EPre_advance st2)
              (EPre_trans (EPre_snd_of_eq h3 (ihExpr LOWEST (advance st2))) (ihSemis st3)))
      -- parseReturnStatement
      · intro st
        unfold parseReturnStatement
        rcases h : parseExpression fuel LOWEST (advance st) with ⟨v, st1⟩
        exact EPre_trans (EPre_advance st)
          (EPre_trans (EPre_snd_of_eq h (ihExpr LOWEST (advance st))) (ihSemis st1))
      -- parseExpressionStatement
      · intro st
        unfold parseExpressionStatement
        rcases h : parseExpression fuel LOWEST st with ⟨e, st1⟩
        have s1 : EPre st st1 := EPre_snd_of_eq h (ihExpr LOWEST st)
        try dsimp only
        split
        · exact EPre_trans s1 (EPre_advance st1)
        · exact s1
      -- eatSemis
      · intro st
        unfold eatSemis
        split
        · exact EPre_trans (EPre_advance st) (ihSemis (advance st))
        · exact EPre_refl st
      -- parseExpression
      · intro prec st
        unfold parseExpression
        split
        · rcases h : parseNud fuel st with ⟨l, st1⟩
          exact EPre_trans (EPre_snd_of_eq h (ihNud st)) (ihLoop prec l st1)
        · exact EPre_pushErr st _
      -- parseNud
      · intro st
        unfold parseNud
        cases st.curr.type
        all_goals first
          | exact EPre_refl st
          | exact EPre_parseIntegerLiteral st
          | exact ihPre st
          | exact ihGrp st
          | exact ihIf st
          | exact ihFn st
      -- parseInfixLoop
      · intro prec left st
        unfold parseInfixLoop
        split
        · rcases hi : parseInfixExpression fuel left (advance st) with ⟨l2, st2⟩
          rcases hc : parseCallExpression fuel left (advance st) with ⟨l3, st3⟩
          cases st.peek.type
          all_goals first
            | exact EPre_refl st
            | exact EPre_trans (EPre_advance st)
                (EPre_trans (EPre_snd_of_eq hi (ihInf left (advance st)))
                  (ihLoop prec l2 st2))
            | exact EPre_trans (EPre_advance st)
                (EPre_trans (EPre_snd_of_eq hc (ihCall left (advance st)))
                  (ihLoop prec l3 st3))
        · exact EPre_refl st
      -- parsePrefixExpression
      · intro st
        unfold parsePrefixExpression
        rcases h : parseExpression fuel PREFIX (advance st) with ⟨r, st1⟩
        exact EPre_trans (EPre_advance st) (EPre_snd_of_eq h (ihExpr PREFIX (advance st)))
      -- parseInfixExpression
      · intro left st
        unfold parseInfixExpression
        rcases h : parseExpression fuel (currPrecedence st) (advance st) with ⟨r, st1⟩
        exact EPre_trans (EPre_advance st)
          (EPre_snd_of_eq h (ihExpr (currPrecedence st) (advance st)))
      -- parseGroupedExpression
      · intro st
        unfold parseGroupedExpression
        rcases h : parseExpression fuel LOWEST (advance st) with ⟨e, st1⟩
        have s1 : EPre st st1 :=
          EPre_trans (EPre_advance st) (EPre_snd_of_eq h (ihExpr LOWEST (advance st)))
        try dsimp only
        rcases h2 : advanceIfNextTokenIs st1 .RPAREN with ⟨b2, st2⟩
        have s2 : EPre st st2 := EPre_trans s1 (EPre_snd_of_eq h2 (EPre_aifnt st1 .RPAREN))
        cases b2
        · exact s2
        · exact s2
      -- parseIfExpression
      · intro st
        unfold parseIfExpression
        rcases h1 : advanceIfNextTokenIs st .LPAREN with ⟨b1, st1⟩
        have s1 : EPre st st1 := EPre_snd_of_eq h1 (EPre_aifnt st .LPAREN)
        cases b1
        · exact s1
        · try dsimp only
          rcases h2 : parseExpression fuel LOWEST (advance st1) with ⟨cond, st2⟩
          have s2 : EPre st st2 := EPre_trans s1 (EPre_trans (EPre_advance st1)
            (EPre_snd_of_eq h2 (ihExpr LOWEST (advance st1))))
          try dsimp only
          rcases h3 : advanceIfNextTokenIs st2 .RPAREN with ⟨b3, st3⟩
          have s3 : EPre st st3 := EPre_trans s2 (EPre_snd_of_eq h3 (EPre_aifnt st2 .RPAREN))
          cases b3
          · exact s3
          · try dsimp only
            rcases h4 : advanceIfNextTokenIs st3 .LBRACE with ⟨b4, st4⟩
            have s4 : EPre st st4 := EPre_trans s3 (EPre_snd_of_eq h4 (EPre_aifnt st3 .LBRACE))
            cases b4
            · exact s4
            · try dsimp only
              rcases h5 : parseBlockStatement fuel st4 with ⟨cons, st5⟩
              have s5 : EPre st st5 := EPre_trans s4 (EPre_snd_of_eq h5 (ihBlock st4))
              try dsimp only
              split
              · rcases h6 : advanceIfNextTokenIs (advance st5) .LBRACE with ⟨b6, st6⟩
                have s6 : EPre st st6 := EPre_trans s5 (EPre_trans (EPre_advance st5)
                  (EPre_snd_of_eq h6 (EPre_aifnt (advance st5) .LBRACE)))
                cases b6
                · exact s6
                · try dsimp only
                  rcases h7 : parseBlockStatement fuel st6 with ⟨alt, st7⟩
                  exact EPre_trans s6 (EPre_snd_of_eq h7 (ihBlock st6))
              · exact s5
      -- parseBlockStatement
      · intro st
        unfold parseBlockStatement
        rcases h : parseBlockLoop fuel [] (advance st) with ⟨ss, st1⟩
        exact EPre_trans (EPre_advance st) (EPre_snd_of_eq h (ihBlockLoop [] (advance st)))
      -- parseBlockLoop
      · intro acc st
        unfold parseBlockLoop
        split
        · rcases h : parseStatement fuel st with ⟨os, st1⟩
          have s1 : EPre st st1 := EPre_snd_of_eq h (ihStmt st)
          cases os
          · exact EPre_trans s1 (EPre_trans (EPre_advance st1)
              (ihBlockLoop acc (advance st1)))
          · exact EPre_trans s1 (EPre_trans (EPre_advance st1)
              (ihBlockLoop _ (advance st1)))
        · exact EPre_refl st
      -- parseFunctionLiteral
      · intro st
        unfold parseFunctionLiteral
        rcases h1 : advanceIfNextTokenIs st .LPAREN with ⟨b1, st1⟩
        have s1 : EPre st st1 := EPre_snd_of_eq h1 (EPre_aifnt st .LPAREN)
        cases b1
        · exact s1
        · try dsimp only
          rcases h2 : parseFunctionParameters fuel st1 with ⟨ps, st2⟩
          have s2 : EPre st st2 := EPre_trans s1 (EPre_snd_of_eq h2 (ihParams st1))
          try dsimp only
          rcases h3 : advanceIfNextTokenIs st2 .LBRACE with ⟨b3, st3⟩
          have s3 : EPre st st3 := EPre_trans s2 (EPre_snd_of_eq h3 (EPre_aifnt st2 .LBRACE))
          cases b3
          · exact s3
          · try dsimp only
            rcases h4 : parseBlockStatement fuel st3 with ⟨body, st4⟩
            exact EPre_trans s3 (EPre_snd_of_eq h4 (ihBlock st3))
      -- parseFunctionParameters
      · intro st
        rw [show parseFunctionParameters (fuel + 1) st =
          (if nextTokenIs st .RPAREN then (some [], advance st)
           else parseFunctionParamsLoop fuel
             [⟨(advance st).curr, (advance st).curr.literal⟩] (advance st)) from rfl]
        split
        · exact EPre_advance st
        · exact EPre_trans (EPre_advance st) (ihParamsLoop _ (advance st))
      -- parseFunctionParamsLoop
      · intro acc st
        unfold parseFunctionParamsLoop
        split
        · exact EPre_trans (EPre_advance st)
            (EPre_trans (EPre_advance (advance st)) (ihParamsLoop _ (advance (advance st))))
        · rcases h : advanceIfNextTokenIs st .RPAREN with ⟨b, st1⟩
          have s1 : EPre st st1 := EPre_snd_of_eq h (EPre_aifnt st .RPAREN)
          cases b
          · exact s1
          · exact s1
      -- parseCallExpression
      · intro left st
        unfold parseCallExpression
        rcases h : parseCallArguments fuel st with ⟨args, st1⟩
        exact EPre_snd_of_eq h (ihArgs st)
      -- parseCallArguments
      · intro st
        unfold parseCallArguments
        split
        · exact EPre_advance st
        · rcases h : parseExpression fuel LOWEST (advance st) with ⟨a, st1⟩
          exact EPre_trans (EPre_advance st)
            (EPre_trans (EPre_snd_of_eq h (ihExpr LOWEST (advance st)))
              (ihArgsLoop [a] st1))
      -- parseCallArgsLoop
      · intro acc st
        unfold parseCallArgsLoop
        split
        · rcases h : parseExpression fuel LOWEST (advance (advance st)) with ⟨a, st1⟩
          exact EPre_trans (EPre_advance st)
            (EPre_trans (EPre_advance (advance st))
              (EPre_trans (EPre_snd_of_eq h (ihExpr LOWEST (advance (advance st))))
                (ihArgsLoop _ st1)))
        · rcases h : advanceIfNextTokenIs st .RPAREN with ⟨b, st1⟩
          have s1 : EPre st st1 := EPre_snd_of_eq h (EPre_aifnt st .RPAREN)
          cases b
          · exact s1
          · exact s1

/-- A possibly-absent statement result is complete when present and
recursively complete. -/
def ostmtComplete : Option Stmt → Bool
  | none => false
  | some s => stmtComplete s

/-- A possibly-absent call-argument list is complete when present with all
arguments present and complete. -/
def oargsComplete : Option (List (Option Expr)) → Bool
  | none => false
  | some l => argsComplete l

theorem EPre_length_le {a b : PState} (h : EPre a b) :
    a.errors.length ≤ b.errors.length := by
  obtain ⟨t, ht⟩ := h
  rw [← ht, List.length_append]
  omega

theorem no_quiet_pushErr {a b : PState} (pre : EPre a b) (d : Diag) :
    ¬ (pushErr b d).errors = a.errors := by
  intro h
  have h1 := EPre_length_le pre
  have h2 : b.errors.length + 1 = a.errors.length := by
    have h3 := congrArg List.length h
    simpa [pushErr] using h3
  omega

/-- Sandwich: when a whole run adds no diagnostic, neither does any stage. -/
theorem quiet_seg {a b c : PState} (h1 : EPre a b) (h2 : EPre b c)
    (h : c.errors = a.errors) : b.errors = a.errors := by
  obtain ⟨t, ht⟩ := h1
  have l2 := EPre_length_le h2
  have lc := congrArg List.length h
  have la := congrArg List.length ht
  rw [List.length_append] at la
  have ht0 : t.length = 0 := by omega
  rw [List.length_eq_zero] at ht0
  subst ht0
  rw [← ht, List.append_nil]

theorem aifnt_false {st : PState} {t : TokType} {st1 : PState}
    (h : advanceIfNextTokenIs st t = (false, st1)) : st1 = peekError st t := by
  unfold advanceIfNextTokenIs at h
  split at h
  · simp at h
  · injection h with h1 h2
    exact h2.symm

theorem aifnt_true {st : PState} {t : TokType} {st1 : PState}
    (h : advanceIfNextTokenIs st t = (true, st1)) : st1 = advance st := by
  unfold advanceIfNextTokenIs at h
  split at h
  · injection h with h1 h2
    exact h2.symm
  · simp at h

theorem stmtsComplete_append (l : List Stmt) (s : Stmt) :
    stmtsComplete (l ++ [s]) = (stmtsComplete l && stmtComplete s) := by
  induction l with
  | nil =>
      have h1 : stmtsComplete ([] ++ [s]) = (stmtComplete s && true) := rfl
      have h2 : (stmtsComplete [] && stmtComplete s) = (true && stmtComplete s) := rfl
      rw [h1, h2, Bool.and_true, Bool.true_and]
  | cons a l ih =>
      have h1 : stmtsComplete ((a :: l) ++ [s]) =
          (stmtComplete a && stmtsComplete (l ++ [s])) := rfl
      have h2 : (stmtsComplete (a :: l) && stmtComplete s) =
          ((stmtComplete a && stmtsComplete l) && stmtComplete s) := rfl
      rw [h1, h2, ih, Bool.and_assoc]

theorem argsComplete_append (l : List (Option Expr)) (a : Option Expr) :
    argsComplete (l ++ [a]) = (argsComplete l && optComplete a) := by
  induction l with
  | nil =>
      have h1 : argsComplete ([] ++ [a]) = (optComplete a && true) := rfl
      have h2 : (argsComplete [] && optComplete a) = (true && optComplete a) := rfl
      rw [h1, h2, Bool.and_true, Bool.true_and]
  | cons b l ih =>
      have h1 : argsComplete ((b :: l) ++ [a]) =
          (optComplete b && argsComplete (l ++ [a])) := rfl
      have h2 : (argsComplete (b :: l) && optComplete a) =
          ((optComplete b && argsComplete l) && optComplete a) := rfl
      rw [h1, h2, ih, Bool.and_assoc]

/-- Every parse function that finishes without appending a diagnostic
delivers a present, complete result: the mutual no-error completeness
induction over the whole parser. -/
theorem parseComplete (fuel : Nat) :
    (∀ st os stF, parseStatement fuel st = (os, stF) →
      stF.errors = st.errors → ostmtComplete os = true) ∧
    (∀ st os stF, parseLetStatement fuel st = (os, stF) →
      stF.errors = st.errors → ostmtComplete os = true) ∧
    (∀ st os stF, parseReturnStatement fuel st = (os, stF) →
      stF.errors = st.errors → ostmtComplete os = true) ∧
    (∀ st s stF, parseExpressionStatement fuel st = (s, stF) →
      stF.errors = st.errors → stmtComplete s = true) ∧
    (∀ prec st oe stF, parseExpression fuel prec st = (oe, stF) →
      stF.errors = st.errors → optComplete oe = true) ∧
    (∀ st oe stF, hasNud st.curr.type = true → parseNud fuel st = (oe, stF) →
      stF.errors = st.errors → optComplete oe = true) ∧
    (∀ prec left st oe stF, optComplete left = true →
      parseInfixLoop fuel prec left st = (oe, stF) →
      stF.errors = st.errors → optComplete oe = true) ∧
    (∀ st oe stF, parsePrefixExpression fuel st = (oe, stF) →
      stF.errors = st.errors → optComplete oe = true) ∧
    (∀ left st oe stF, optComplete left = true →
      parseInfixExpression fuel left st = (oe, stF) →
      stF.errors = st.errors → optComplete oe = true) ∧
    (∀ st oe stF, parseGroupedExpression fuel st = (oe, stF) →
      stF.errors = st.errors → optComplete oe = true) ∧
    (∀ st oe stF, parseIfExpression fuel st = (oe, stF) →
      stF.errors = st.errors → optComplete oe = true) ∧
    (∀ st b stF, parseBlockStatement fuel st = (b, stF) →
      stF.errors = st.errors → blockComplete b = true) ∧
    (∀ acc st ss stF, stmtsComplete acc = true →
      parseBlockLoop fuel acc st = (ss, stF) →
      stF.errors = st.errors → stmtsComplete ss = true) ∧
    (∀ st oe stF, parseFunctionLiteral fuel st = (oe, stF) →
      stF.errors = st.errors → optComplete oe = true) ∧
    (∀ st ops stF, parseFunctionParameters fuel st = (ops, stF) →
      stF.errors = st.errors → ops.isSome = true) ∧
    (∀ acc st ops stF, parseFunctionParamsLoop fuel acc st = (ops, stF) →
      stF.errors = st.errors → ops.isSome = true) ∧
    (∀ left st oe stF, optComplete left = true →
      parseCallExpression fuel left st = (oe, stF) →
      stF.errors = st.errors → optComplete oe = true) ∧
    (∀ st oa stF, parseCallArguments fuel st = (oa, stF) →
      stF.errors = st.errors → oargsComplete oa = true) ∧
    (∀ acc st oa stF, argsComplete acc = true →
      parseCallArgsLoop fuel acc st = (oa, stF) →
      stF.errors = st.errors → oargsComplete oa = true) := by
  induction fuel with
  | zero =>
      refine ⟨?_, ?_, ?_, ?_, ?_, ?_, ?_, ?_, ?_, ?_, ?_, ?_, ?_, ?_, ?_, ?_, ?_, ?_, ?_⟩
      all_goals
        intros
        rename_i heq hq
        injection heq with hA hB
        rw [← hB] at hq
        exact absurd hq (no_quiet_pushErr (EPre_refl _) _)
  | succ fuel ih =>
      obtain ⟨ihStmt, ihLet, ihRet, ihExprStmt, ihExpr, ihNud, ihLoop, ihPre,
        ihInf, ihGrp, ihIf, ihBlock, ihBlockLoop, ihFn, ihParams, ihParamsLoop,
        ihCall, ihArgs, ihArgsLoop⟩ := ih
      obtain ⟨wStmt, _, _, _, wSemis, wExpr, wNud, wLoop, _, wInf, _, _,
        wBlock, wBlockLoop, _, wParams, _, wCall, _, wArgsLoop⟩ := parseEPre fuel
      refine ⟨?_, ?_, ?_, ?_, ?_, ?_, ?_, ?_, ?_, ?_, ?_, ?_, ?_, ?_, ?_, ?_, ?_, ?_, ?_⟩
      -- parseStatement
      · intro st os stF heq hq
        unfold parseStatement at heq
        cases ht : st.curr.type
        all_goals rw [ht] at heq
        all_goals dsimp only at heq
        all_goals first
          | exact ihLet st os stF heq hq
          | exact ihRet st os stF heq hq
          | (rcases hs : parseExpressionStatement fuel st with ⟨s, st1⟩
             rw [hs] at heq
             dsimp only at heq
             injection heq with hA hB
             rw [← hB] at hq
             subst hA
             exact ihExprStmt st s st1 hs hq)
      -- parseLetStatement
      · intro st os stF heq hq
        unfold parseLetStatement at heq
        rcases h1 : advanceIfNextTokenIs st .NAME with ⟨b1, st1⟩
        rw [h1] at heq
        have sA : EPre st st1 := EPre_snd_of_eq h1 (EPre_aifnt st .NAME)
        cases b1
        · dsimp only at heq
          injection heq with hA hB
          rw [← hB] at hq
          rw [aifnt_false h1] at hq
          exact absurd hq (no_quiet_pushErr (EPre_refl st) _)
        · dsimp only at heq
          rcases h2 : advanceIfNextTokenIs st1 .ASSIGN with ⟨b2, st2⟩
          rw [h2] at heq
          have sB : EPre st1 st2 := EPre_snd_of_eq h2 (EPre_aifnt st1 .ASSIGN)
          cases b2
          · dsimp only at heq
            injection heq with hA hB
            rw [← hB] at hq
            rw [aifnt_false h2] at hq
            exact absurd hq (no_quiet_pushErr sA _)
          · dsimp only at heq
            rcases h3 : parseExpression fuel LOWEST (advance st2) with ⟨v, st3⟩
            rw [h3] at heq
            dsimp only at heq
            injection heq with hA hB
            rw [← hB] at hq
            subst hA
            have sC : EPre st2 st3 := EPre_trans (EPre_advance st2)
              (EPre_snd_of_eq h3 (wExpr LOWEST (advance st2)))
            have q3 : st3.errors = st.errors :=
              quiet_seg (EPre_trans sA (EPre_trans sB sC)) (wSemis st3) hq
            have q2 : st2.errors = st.errors :=
              quiet_seg (EPre_trans sA sB) (EPre_trans sC (wSemis st3)) hq
            exact ihExpr LOWEST (advance st2) v st3 h3 (by rw [q3, errors_advance, q2])
      -- parseReturnStatement
      · intro st os stF heq hq
        unfold parseReturnStatement at heq
        rcases h1 : parseExpression fuel LOWEST (advance st) with ⟨v, st1⟩
        rw [h1] at heq
        dsimp only at heq
        injection heq with hA hB
        rw [← hB] at hq
        subst hA
        have sA : EPre st st1 := EPre_trans (EPre_advance st)
          (EPre_snd_of_eq h1 (wExpr LOWEST (advance st)))
        have q1 : st1.errors = st.errors := quiet_seg sA (wSemis st1) hq
        exact ihExpr LOWEST (advance st) v st1 h1 (by rw [q1, errors_advance])
      -- parseExpressionStatement
      · intro st s stF heq hq
        unfold parseExpressionStatement at heq
        rcases h1 : parseExpression fuel LOWEST st with ⟨e, st1⟩
        rw [h1] at heq
        dsimp only at heq
        injection heq with hA hB
        rw [← hB] at hq
        subst hA
        have hf : (if nextTokenIs st1 .SEMICOLON then advance st1 else st1).errors
            = st1.errors := by
          split
          · exact errors_advance st1
          · rfl
        rw [hf] at hq
        exact ihExpr LOWEST st e st1 h1 hq
      -- parseExpression
      · intro prec st oe stF heq hq
        unfold parseExpression at heq
        split at heq
        · rename_i hn
          rcases h1 : parseNud fuel st with ⟨left, st1⟩
          rw [h1] at heq
          dsimp only at heq
          have sA : EPre st st1 := EPre_snd_of_eq h1 (wNud st)
          have sB : EPre st1 stF := EPre_snd_of_eq heq (wLoop prec left st1)
          have q1 : st1.errors = st.errors := quiet_seg sA sB hq
          have hleft : optComplete left = true := ihNud st left st1 hn h1 q1
          exact ihLoop prec left st1 oe stF hleft heq (by rw [hq, q1])
        · injection heq with hA hB
          rw [← hB] at hq
          exact absurd hq (no_quiet_pushErr (EPre_refl st) _)
      -- parseNud
      · intro st oe stF hn heq hq
        unfold parseNud at heq
        cases ht : st.curr.type
        all_goals rw [ht] at heq hn
        all_goals dsimp only at heq
        all_goals first
          | exact ihPre st oe stF heq hq
          | exact ihGrp st oe stF heq hq
          | exact ihIf st oe stF heq hq
          | exact ihFn st oe stF heq hq
          | exact absurd hn (by decide)
          | (injection heq with hA hB
             subst hA
             rfl)
          | (unfold parseIntegerLiteral at heq
             cases hg : goParseInt st.curr.literal with
             | none =>
                 rw [hg] at heq
                 dsimp only at heq
                 injection heq with hA hB
                 rw [← hB] at hq
                 exact absurd hq (no_quiet_pushErr (EPre_refl st) _)
             | some v =>
                 rw [hg] at heq
                 dsimp only at heq
                 injection heq with hA hB
                 subst hA
                 rfl)
      -- parseInfixLoop
      · intro prec left st oe stF hl heq hq
        unfold parseInfixLoop at heq
        split at heq
        · cases hp : st.peek.type
          all_goals rw [hp] at heq
          all_goals try dsimp only at heq
          all_goals first
            | (rcases h1 : parseInfixExpression fuel left (advance st) with ⟨left2, st2⟩
               rw [h1] at heq
               dsimp only at heq
               have sA : EPre st st2 := EPre_trans (EPre_advance st)
                 (EPre_snd_of_eq h1 (wInf left (advance st)))
               have sB : EPre st2 stF := EPre_snd_of_eq heq (wLoop prec left2 st2)
               have q2 : st2.errors = st.errors := quiet_seg sA sB hq
               have hl2 : optComplete left2 = true :=
                 ihInf left (advance st) left2 st2 hl h1 (by rw [q2, errors_advance])
               exact ihLoop prec left2 st2 oe stF hl2 heq (by rw [hq, q2]))
            | (rcases h1 : parseCallExpression fuel left (advance st) with ⟨left2, st2⟩
               rw [h1] at heq
               dsimp only at heq
               have sA : EPre st st2 := EPre_trans (EPre_advance st)
                 (EPre_snd_of_eq h1 (wCall left (advance st)))
               have sB : EPre st2 stF := EPre_snd_of_eq heq (wLoop prec left2 st2)
               have q2 : st2.errors = st.errors := quiet_seg sA sB hq
               have hl2 : optComplete left2 = true :=
                 ihCall left (advance st) left2 st2 hl h1 (by rw [q2, errors_advance])
               exact ihLoop prec left2 st2 oe stF hl2 heq (by rw [hq, q2]))
            | (injection heq with hA hB
               subst hA
               exact hl)
        · injection heq with hA hB
          subst hA
          exact hl
      -- parsePrefixExpression
      · intro st oe stF heq hq
        unfold parsePrefixExpression at heq
        rcases h1 : parseExpression fuel PREFIX (advance st) with ⟨r, st1⟩
        rw [h1] at heq
        dsimp only at heq
        injection heq with hA hB
        rw [← hB] at hq
        subst hA
        exact ihExpr PREFIX (advance st) r st1 h1 (by rw [hq, errors_advance])
      -- parseInfixExpression
      · intro left st oe stF hl heq hq
        unfold parseInfixExpression at heq
        rcases h1 : parseExpression fuel (currPrecedence st) (advance st) with ⟨r, st1⟩
        rw [h1] at heq
        dsimp only at heq
        injection heq with hA hB
        rw [← hB] at hq
        subst hA
        have hr : optComplete r = true :=
          ihExpr (currPrecedence st) (advance st) r st1 h1 (by rw [hq, errors_advance])
        show (optComplete left && optComplete r) = true
        rw [hl, hr]
        rfl
      -- parseGroupedExpression
      · intro st oe stF heq hq
        unfold parseGroupedExpression at heq
        rcases h1 : parseExpression fuel LOWEST (advance st) with ⟨e, st1⟩
        rw [h1] at heq
        dsimp only at heq
        have sA : EPre st st1 := EPre_trans (EPre_advance st)
          (EPre_snd_of_eq h1 (wExpr LOWEST (advance st)))
        rcases h2 : advanceIfNextTokenIs st1 .RPAREN with ⟨b2, st2⟩
        rw [h2] at heq
        cases b2
        · dsimp only at heq
          injection heq with hA hB
          rw [← hB] at hq
          rw [aifnt_false h2] at hq
          exact absurd hq (no_quiet_pushErr sA _)
        · dsimp only at heq
          injection heq with hA hB
          rw [← hB] at hq
          subst hA
          rw [aifnt_true h2, errors_advance] at hq
          exact ihExpr LOWEST (advance st) e st1 h1 (by rw [hq, errors_advance])
      -- parseIfExpression
      · intro st oe stF heq hq
        unfold parseIfExpression at heq
        rcases h1 : advanceIfNextTokenIs st .LPAREN with ⟨b1, st1⟩
        rw [h1] at heq
        have sA : EPre st st1 := EPre_snd_of_eq h1 (EPre_aifnt st .LPAREN)
        cases b1
        · dsimp only at heq
          injection heq with hA hB
          rw [← hB] at hq
          rw [aifnt_false h1] at hq
          exact absurd hq (no_quiet_pushErr (EPre_refl st) _)
        · dsimp only at heq
          rcases h2 : parseExpression fuel LOWEST (advance st1) with ⟨cond, st2⟩
          rw [h2] at heq
          dsimp only at heq
          have sB : EPre st1 st2 := EPre_trans (EPre_advance st1)
            (EPre_snd_of_eq h2 (wExpr LOWEST (advance st1)))
          rcases h3 : advanceIfNextTokenIs st2 .RPAREN with ⟨b3, st3⟩
          rw [h3] at heq
          have sC : EPre st2 st3 := EPre_snd_of_eq h3 (EPre_aifnt st2 .RPAREN)
          cases b3
          · dsimp only at heq
            injection heq with hA hB
            rw [← hB] at hq
            rw [aifnt_false h3] at hq
            exact absurd hq (no_quiet_pushErr (EPre_trans sA sB) _)
          · dsimp only at heq
            rcases h4 : advanceIfNextTokenIs st3 .LBRACE with ⟨b4, st4⟩
            rw [h4] at heq
            have sD : EPre st3 st4 := EPre_snd_of_eq h4 (EPre_aifnt st3 .LBRACE)
            cases b4
            · dsimp only at heq
              injection heq with hA hB
              rw [← hB] at hq
              rw [aifnt_false h4] at hq
              exact absurd hq (no_quiet_pushErr (EPre_trans sA (EPre_trans sB sC)) _)
            · dsimp only at heq
              rcases h5 : parseBlockStatement fuel st4 with ⟨cons, st5⟩
              rw [h5] at heq
              dsimp only at heq
              have sE : EPre st4 st5 := EPre_snd_of_eq h5 (wBlock st4)
              split at heq
              · rcases h6 : advanceIfNextTokenIs (advance st5) .LBRACE with ⟨b6, st6⟩
                rw [h6] at heq
                have sF : EPre st5 st6 := EPre_trans (EPre_advance st5)
                  (EPre_snd_of_eq h6 (EPre_aifnt (advance st5) .LBRACE))
                cases b6
                · dsimp only at heq
                  injection heq with hA hB
                  rw [← hB] at hq
                  rw [aifnt_false h6] at hq
                  exact absurd hq (no_quiet_pushErr (EPre_trans sA (EPre_trans sB
                    (EPre_trans sC (EPre_trans sD (EPre_trans sE (EPre_advance st5)))))) _)
                · dsimp only at heq
                  rcases h7 : parseBlockStatement fuel st6 with ⟨alt, st7⟩
                  rw [h7] at heq
                  dsimp only at heq
                  injection heq with hA hB
                  rw [← hB] at hq
                  subst hA
                  have sG : EPre st6 st7 := EPre_snd_of_eq h7 (wBlock st6)
                  have q1 : st1.errors = st.errors := quiet_seg sA (EPre_trans sB
                    (EPre_trans sC (EPre_trans sD (EPre_trans sE (EPre_trans sF sG))))) hq
                  have q2 : st2.errors = st.errors := quiet_seg (EPre_trans sA sB)
                    (EPre_trans sC (EPre_trans sD (EPre_trans sE (EPre_trans sF sG)))) hq
                  have q4 : st4.errors = st.errors := quiet_seg
                    (EPre_trans sA (EPre_trans sB (EPre_trans sC sD)))
                    (EPre_trans sE (EPre_trans sF sG)) hq
                  have q5 : st5.errors = st.errors := quiet_seg
                    (EPre_trans sA (EPre_trans sB (EPre_trans sC (EPre_trans sD sE))))
                    (EPre_trans sF sG) hq
                  have q6 : st6.errors = st.errors := quiet_seg
                    (EPre_trans sA (EPre_trans sB (EPre_trans sC
                      (EPre_trans sD (EPre_trans sE sF))))) sG hq
                  have hcond : optComplete cond = true :=
                    ihExpr LOWEST (advance st1) cond st2 h2 (by rw [q2, errors_advance, q1])
                  have hcons : blockComplete cons = true :=
                    ihBlock st4 cons st5 h5 (by rw [q5, q4])
                  have halt : blockComplete alt = true :=
                    ihBlock st6 alt st7 h7 (by rw [hq, q6])
                  show ((optComplete cond && blockComplete cons) && blockComplete alt) = true
                  rw [hcond, hcons, halt]
                  rfl
              · injection heq with hA hB
                rw [← hB] at hq
                subst hA
                have q1 : st1.errors = st.errors := quiet_seg sA
                  (EPre_trans sB (EPre_trans sC (EPre_trans sD sE))) hq
                have q2 : st2.errors = st.errors := quiet_seg (EPre_trans sA sB)
                  (EPre_trans sC (EPre_trans sD sE)) hq
                have q4 : st4.errors = st.errors := quiet_seg
                  (EPre_trans sA (EPre_trans sB (EPre_trans sC sD))) sE hq
                have hcond : optComplete cond = true :=
                  ihExpr LOWEST (advance st1) cond st2 h2 (by rw [q2, errors_advance, q1])
                have hcons : blockComplete cons = true :=
                  ihBlock st4 cons st5 h5 (by rw [hq, q4])
                show ((optComplete cond && blockComplete cons) && true) = true
                rw [hcond, hcons]
                rfl
      -- parseBlockStatement
      · intro st b stF heq hq
        unfold parseBlockStatement at heq
        rcases h1 : parseBlockLoop fuel [] (advance st) with ⟨ss, st1⟩
        rw [h1] at heq
        dsimp only at heq
        injection heq with hA hB
        rw [← hB] at hq
        subst hA
        exact ihBlockLoop [] (advance st) ss st1 rfl h1 (by rw [hq, errors_advance])
      -- parseBlockLoop
      · intro acc st ss stF hacc heq hq
        unfold parseBlockLoop at heq
        split at heq
        · rcases h1 : parseStatement fuel st with ⟨os, st1⟩
          rw [h1] at heq
          have sA : EPre st st1 := EPre_snd_of_eq h1 (wStmt st)
          cases os with
          | none =>
              dsimp only at heq
              have sB : EPre st1 stF := EPre_trans (EPre_advance st1)
                (EPre_snd_of_eq heq (wBlockLoop acc (advance st1)))
              have q1 : st1.errors = st.errors := quiet_seg sA sB hq
              have hc : ostmtComplete none = true := ihStmt st none st1 h1 q1
              exact absurd hc (by decide)
          | some s =>
              dsimp only at heq
              have sB : EPre st1 stF := EPre_trans (EPre_advance st1)
                (EPre_snd_of_eq heq (wBlockLoop (acc ++ [s]) (advance st1)))
              have q1 : st1.errors = st.errors := quiet_seg sA sB hq
              have hs : stmtComplete s = true := ihStmt st (some s) st1 h1 q1
              have hacc2 : stmtsComplete (acc ++ [s]) = true := by
                rw [stmtsComplete_append, hacc, hs]
                rfl
              exact ihBlockLoop (acc ++ [s]) (advance st1) ss stF hacc2 heq
                (by rw [hq, errors_advance, q1])
        · injection heq with hA hB
          subst hA
          exact hacc
      -- parseFunctionLiteral
      · intro st oe stF heq hq
        unfold parseFunctionLiteral at heq
        rcases h1 : advanceIfNextTokenIs st .LPAREN with ⟨b1, st1⟩
        rw [h1] at heq
        have sA : EPre st st1 := EPre_snd_of_eq h1 (EPre_aifnt st .LPAREN)
        cases b1
        · dsimp only at heq
          injection heq with hA hB
          rw [← hB] at hq
          rw [aifnt_false h1] at hq
          exact absurd hq (no_quiet_pushErr (EPre_refl st) _)
        · dsimp only at heq
          rcases h2 : parseFunctionParameters fuel st1 with ⟨ps, st2⟩
          rw [h2] at heq
          dsimp only at heq
          have sB : EPre st1 st2 := EPre_snd_of_eq h2 (wParams st1)
          rcases h3 : advanceIfNextTokenIs st2 .LBRACE with ⟨b3, st3⟩
          rw [h3] at heq
          have sC : EPre st2 st3 := EPre_snd_of_eq h3 (EPre_aifnt st2 .LBRACE)
          cases b3
          · dsimp only at heq
            injection heq with hA hB
            rw [← hB] at hq
            rw [aifnt_false h3] at hq
            exact absurd hq (no_quiet_pushErr (EPre_trans sA sB) _)
          · dsimp only at heq
            rcases h4 : parseBlockStatement fuel st3 with ⟨body, st4⟩
            rw [h4] at heq
            dsimp only at heq
            injection heq with hA hB
            rw [← hB] at hq
            subst hA
            have sD : EPre st3 st4 := EPre_snd_of_eq h4 (wBlock st3)
            have q1 : st1.errors = st.errors :=
              quiet_seg sA (EPre_trans sB (EPre_trans sC sD)) hq
            have q2 : st2.errors = st.errors :=
              quiet_seg (EPre_trans sA sB) (EPre_trans sC sD) hq
            have q3 : st3.errors = st.errors :=
              quiet_seg (EPre_trans sA (EPre_trans sB sC)) sD hq
            have hps : ps.isSome = true := ihParams st1 ps st2 h2 (by rw [q2, q1])
            have hb : blockComplete body = true := ihBlock st3 body st4 h4 (by rw [hq, q3])
            show (ps.isSome && blockComplete body) = true
            rw [hps, hb]
            rfl
      -- parseFunctionParameters
      · intro st ops stF heq hq
        rw [show parseFunctionParameters (fuel + 1) st =
          (if nextTokenIs st .RPAREN then (some [], advance st)
           else parseFunctionParamsLoop fuel
             [⟨(advance st).curr, (advance st).curr.literal⟩] (advance st)) from rfl] at heq
        split at heq
        · injection heq with hA hB
          subst hA
          rfl
        · exact ihParamsLoop _ (advance st) ops stF heq (by rw [hq, errors_advance])
      -- parseFunctionParamsLoop
      · intro acc st ops stF heq hq
        unfold parseFunctionParamsLoop at heq
        split at heq
        · exact ihParamsLoop _ (advance (advance st)) ops stF heq
            (by rw [hq, errors_advance, errors_advance])
        · rcases h1 : advanceIfNextTokenIs st .RPAREN with ⟨b1, st1⟩
          rw [h1] at heq
          cases b1
          · dsimp only at heq
            injection heq with hA hB
            rw [← hB] at hq
            rw [aifnt_false h1] at hq
            exact absurd hq (no_quiet_pushErr (EPre_refl st) _)
          · dsimp only at heq
            injection heq with hA hB
            subst hA
            rfl
      -- parseCallExpression
      · intro left st oe stF hl heq hq
        unfold parseCallExpression at heq
        rcases h1 : parseCallArguments fuel st with ⟨args, st1⟩
        rw [h1] at heq
        dsimp only at heq
        injection heq with hA hB
        rw [← hB] at hq
        subst hA
        have hargs : oargsComplete args = true := ihArgs st args st1 h1 hq
        cases args with
        | none => exact absurd hargs (by decide)
        | some l =>
            have hl2 : argsComplete l = true := hargs
            show (optComplete left && argsComplete l) = true
            rw [hl, hl2]
            rfl
      -- parseCallArguments
      · intro st oa stF heq hq
        unfold parseCallArguments at heq
        split at heq
        · injection heq with hA hB
          subst hA
          rfl
        · rcases h1 : parseExpression fuel LOWEST (advance st) with ⟨a, st1⟩
          rw [h1] at heq
          dsimp only at heq
          have sA : EPre st st1 := EPre_trans (EPre_advance st)
            (EPre_snd_of_eq h1 (wExpr LOWEST (advance st)))
          have sB : EPre st1 stF := EPre_snd_of_eq heq (wArgsLoop [a] st1)
          have q1 : st1.errors = st.errors := quiet_seg sA sB hq
          have ha : optComplete a = true :=
            ihExpr LOWEST (advance st) a st1 h1 (by rw [q1, errors_advance])
          have hacc : argsComplete [a] = true := by
            show (optComplete a && true) = true
            rw [ha]
            rfl
          exact ihArgsLoop [a] st1 oa stF hacc heq (by rw [hq, q1])
      -- parseCallArgsLoop
      · intro acc st oa stF hacc heq hq
        unfold parseCallArgsLoop at heq
        split at heq
        · rcases h1 : parseExpression fuel LOWEST (advance (advance st)) with ⟨a, st1⟩
          rw [h1] at heq
          dsimp only at heq
          have sA : EPre st st1 := EPre_trans (EPre_advance st)
            (EPre_trans (EPre_advance (advance st))
              (EPre_snd_of_eq h1 (wExpr LOWEST (advance (advance st)))))
          have sB : EPre st1 stF := EPre_snd_of_eq heq (wArgsLoop (acc ++ [a]) st1)
          have q1 : st1.errors = st.errors := quiet_seg sA sB hq
          have ha : optComplete a = true := ihExpr LOWEST (advance (advance st)) a st1 h1
            (by rw [q1, errors_advance, errors_advance])
          have hacc2 : argsComplete (acc ++ [a]) = true := by
            rw [argsComplete_append, hacc, ha]
            rfl
          exact ihArgsLoop (acc ++ [a]) st1 oa stF hacc2 heq (by rw [hq, q1])
        · rcases h1 : advanceIfNextTokenIs st .RPAREN with ⟨b1, st1⟩
          rw [h1] at heq
          cases b1
          · dsimp only at heq
            injection heq with hA hB
            rw [← hB] at hq
            rw [aifnt_false h1] at hq
            exact absurd hq (no_quiet_pushErr (EPre_refl st) _)
          · dsimp only at heq
            injection heq with hA hB
            subst hA
            exact hacc

/-- The ParseProgram loop only appends to the diagnostics list. -/
theorem EPre_parseProgramLoop (innerFuel fuelTop : Nat) :
    ∀ acc st, EPre st (parseProgramLoop fuelTop innerFuel acc st).2 := by
  induction fuelTop with
  | zero =>
      intro acc st
      unfold parseProgramLoop
      split
      · exact EPre_refl st
      · exact EPre_pushErr st _
  | succ f ih =>
      intro acc st
      unfold parseProgramLoop
      split
      · exact EPre_refl st
      · dsimp only
        rcases h1 : parseStatement innerFuel st with ⟨os, st1⟩
        have sA : EPre st st1 := EPre_snd_of_eq h1 ((parseEPre innerFuel).1 st)
        cases os with
        | none =>
            exact EPre_trans sA (EPre_trans (EPre_advance st1) (ih acc (advance st1)))
        | some s =>
            exact EPre_trans sA (EPre_trans (EPre_flush st1)
              (EPre_trans (EPre_advance (flushProgress st1))
                (ih (acc ++ [s]) (advance (flushProgress st1)))))

/-- If the ParseProgram loop finishes without appending a diagnostic, its
statement list is complete (given a complete accumulator). -/
theorem parseProgramLoop_complete (innerFuel fuelTop : Nat) :
    ∀ acc st ss stF, stmtsComplete acc = true →
      parseProgramLoop fuelTop innerFuel acc st = (ss, stF) →
      stF.errors = st.errors → stmtsComplete ss = true := by
  induction fuelTop with
  | zero =>
      intro acc st ss stF hacc heq hq
      unfold parseProgramLoop at heq
      split at heq
      · injection heq with hA hB
        subst hA
        exact hacc
      · dsimp only at heq
        injection heq with hA hB
        rw [← hB] at hq
        exact absurd hq (no_quiet_pushErr (EPre_refl st) _)
  | succ f ih =>
      intro acc st ss stF hacc heq hq
      unfold parseProgramLoop at heq
      split at heq
      · injection heq with hA hB
        subst hA
        exact hacc
      · dsimp only at heq
        rcases h1 : parseStatement innerFuel st with ⟨os, st1⟩
        rw [h1] at heq
        have sA : EPre st st1 := EPre_snd_of_eq h1 ((parseEPre innerFuel).1 st)
        cases os with
        | none =>
            dsimp only at heq
            have sB : EPre st1 stF := EPre_trans (EPre_advance st1)
              (EPre_snd_of_eq heq (EPre_parseProgramLoop innerFuel f acc (advance st1)))
            have q1 : st1.errors = st.errors := quiet_seg sA sB hq
            have hc : ostmtComplete none = true :=
              (parseComplete innerFuel).1 st none st1 h1 q1
            exact absurd hc (by decide)
        | some s =>
            dsimp only at heq
            have sB : EPre st1 stF := EPre_trans (EPre_flush st1)
              (EPre_trans (EPre_advance (flushProgress st1))
                (EPre_snd_of_eq heq
                  (EPre_parseProgramLoop innerFuel f (acc ++ [s])
                    (advance (flushProgress st1)))))
            have q1 : st1.errors = st.errors := quiet_seg sA sB hq
            have hs : stmtComplete s = true :=
              (parseComplete innerFuel).1 st (some s) st1 h1 q1
            have hacc2 : stmtsComplete (acc ++ [s]) = true := by
              rw [stmtsComplete_append, hacc, hs]
              rfl
            have hfl : (flushProgress st1).errors = st1.errors := rfl
            exact ih (acc ++ [s]) (advance (flushProgress st1)) ss stF hacc2 heq
              (by rw [hq, errors_advance, hfl, q1])

theorem errors_initState (toks : List Tok) : (initState toks).errors = [] := by
  unfold initState
  rw [errors_advance, errors_advance]

/-- C7: whenever ParseProgram returns with an empty diagnostics list, no node
in the returned program has an absent required child — a let statement's
value, a prefix or infix operand, an if expression's condition, a function
literal's parameter list and every call argument are all present (and
recursively complete); absence only arises together with a recorded error. -/
theorem c7_no_errors_complete (s : List Char)
    (h : (parseProgram s).2.errors = []) :
    stmtsComplete (parseProgram s).1.statements = true := by
  rcases hp : parseProgramLoop (stMeasure (initState (tokenize s 0)) + 1)
      (8 * stMeasure (initState (tokenize s 0)) + 64) [] (initState (tokenize s 0))
    with ⟨ss, stF⟩
  have hpp : parseProgram s = (⟨ss⟩, stF) := by
    unfold parseProgram
    rw [hp]
  rw [hpp] at h ⊢
  dsimp only at h ⊢
  have hinit := errors_initState (tokenize s 0)
  exact parseProgramLoop_complete _ _ [] (initState (tokenize s 0)) ss stF rfl hp
    (by rw [h, hinit])

/-- Witness for C7 at the input `let x = 5;`: the parse is error-free and
the resulting program has every required child present. -/
theorem c7_witness :
    (parseProgram "let x = 5;".toList).2.errors = [] ∧
      stmtsComplete (parseProgram "let x = 5;".toList).1.statements = true :=
  ⟨by decide, c7_no_errors_complete _ (by decide)⟩

end Monkey
